import Mathlib

/-!
Verification of the BlackRoad Environments state-synchronization core.

This file embeds, in Lean, the hashing layer (`src/utils/hash.ts`) and the
state manager (`src/state/manager.ts`) of the repository, together with the
slice of the Cloudflare client (`src/clients/cloudflare.ts`) that the sync
engine depends on, and proves or refutes the specification claims about them.

Modelling conventions:
* JavaScript strings are Lean `String`s; the concrete values exercised by the
  theorems are ASCII, where UTF-16 code-unit order and code-point order agree.
* JavaScript objects/`Map`s are association lists with unique keys; `Map.set`
  replaces in place, `Map.get` is `List.lookup`.
* The Node `crypto` digests (`createHash('sha256'|'sha384'|'sha512')`) are
  implemented bit-faithfully (FIPS 180-4) over `Nat` with explicit `% 2^w`.
* Sources of nondeterminism (random salts, `Date.now`, network results) are
  passed in as explicit parameters.
-/

namespace BR

/-- 2^32 truncation used by the 32-bit SHA-2 word arithmetic. -/
def w32 (x : Nat) : Nat := x % 4294967296

/-- 2^64 truncation used by the 64-bit SHA-2 word arithmetic. -/
def w64 (x : Nat) : Nat := x % 18446744073709551616

/-- Right rotation of a 32-bit word. -/
def rotr32 (n x : Nat) : Nat := (x >>> n) ||| w32 (x <<< (32 - n))

/-- Right rotation of a 64-bit word. -/
def rotr64 (n x : Nat) : Nat := (x >>> n) ||| w64 (x <<< (64 - n))

/-- SHA-256 round constants (FIPS 180-4, section 4.2.2). -/
def k256 : List Nat := [1116352408, 1899447441, 3049323471, 3921009573, 961987163, 1508970993, 2453635748, 2870763221, 3624381080, 310598401, 607225278, 1426881987, 1925078388, 2162078206, 2614888103, 3248222580, 3835390401, 4022224774, 264347078, 604807628, 770255983, 1249150122, 1555081692, 1996064986, 2554220882, 2821834349, 2952996808, 3210313671, 3336571891, 3584528711, 113926993, 338241895, 666307205, 773529912, 1294757372, 1396182291, 1695183700, 1986661051, 2177026350, 2456956037, 2730485921, 2820302411, 3259730800, 3345764771, 3516065817, 3600352804, 4094571909, 275423344, 430227734, 506948616, 659060556, 883997877, 958139571, 1322822218, 1537002063, 1747873779, 1955562222, 2024104815, 2227730452, 2361852424, 2428436474, 2756734187, 3204031479, 3329325298]

/-- SHA-256 initial hash value (FIPS 180-4, section 5.3.3). -/
def h256init : List Nat := [1779033703, 3144134277, 1013904242, 2773480762, 1359893119, 2600822924, 528734635, 1541459225]

/-- UTF-8 encoding of one character, as Node's `Buffer.from(s)` produces. -/
def utf8Char (c : Char) : List Nat :=
  let n := c.toNat
  if n < 128 then [n]
  else if n < 2048 then [192 + n / 64, 128 + n % 64]
  else if n < 65536 then [224 + n / 4096, 128 + (n / 64) % 64, 128 + n % 64]
  else [240 + n / 262144, 128 + (n / 4096) % 64, 128 + (n / 64) % 64, 128 + n % 64]

/-- UTF-8 bytes of a string. -/
def utf8 (s : String) : List Nat := s.data.foldr (fun c acc => utf8Char c ++ acc) []

/-- SHA-2 message padding: append 0x80, zero bytes, and the 2·`lenBytes`-byte
big-endian bit length, so the total is a multiple of `blockLen`. -/
def shaPad (blockLen lenFieldLen : Nat) (msg : List Nat) : List Nat :=
  let l := msg.length
  let zeros := (blockLen - (l + 1 + lenFieldLen) % blockLen) % blockLen
  let bitLen := 8 * l
  let lenBytes := (List.range lenFieldLen).map
    (fun i => (bitLen >>> (8 * (lenFieldLen - 1 - i))) % 256)
  msg ++ [128] ++ List.replicate zeros 0 ++ lenBytes

/-- Split a byte list into big-endian 4-byte words (SHA-256 block parsing). -/
def toWords4 : List Nat → List Nat
  | a :: b :: c :: d :: rest => (((a * 256 + b) * 256 + c) * 256 + d) :: toWords4 rest
  | _ => []

/-- Split a byte list into big-endian 8-byte words (SHA-512 block parsing). -/
def toWords8 : List Nat → List Nat
  | a :: b :: c :: d :: e :: f :: g :: h :: rest =>
    (((((((a * 256 + b) * 256 + c) * 256 + d) * 256 + e) * 256 + f) * 256 + g) * 256 + h)
      :: toWords8 rest
  | _ => []

/-- Chunk a list into pieces of length `n`, with explicit fuel so that the
kernel can evaluate it (the fuel is instantiated with the list length). -/
def chunksF (n : Nat) : Nat → List α → List (List α)
  | 0, _ => []
  | _, [] => []
  | fuel + 1, l => l.take n :: chunksF n fuel (l.drop n)

/-- Chunk a list into pieces of length `n` (the SHA-2 block split). -/
def chunks (n : Nat) (l : List α) : List (List α) := chunksF n l.length l

/-- SHA-256 message schedule: extend 16 words to 64. -/
def sched256 (ws : List Nat) : Nat → List Nat
  | 0 => ws
  | n + 1 =>
    let ws' := sched256 ws n
    let i := ws'.length
    let g := fun j => ws'.getD (i - j) 0
    let s0 := (rotr32 7 (g 15)) ^^^ (rotr32 18 (g 15)) ^^^ ((g 15) >>> 3)
    let s1 := (rotr32 17 (g 2)) ^^^ (rotr32 19 (g 2)) ^^^ ((g 2) >>> 10)
    ws' ++ [w32 (g 16 + s0 + g 7 + s1)]

/-- One SHA-256 compression round. -/
def round256 (w k : Nat) (st : List Nat) : List Nat :=
  match st with
  | [a, b, c, d, e, f, g, h] =>
    let s1 := (rotr32 6 e) ^^^ (rotr32 11 e) ^^^ (rotr32 25 e)
    let ch := (e &&& f) ^^^ ((4294967295 - e) &&& g)
    let t1 := w32 (h + s1 + ch + k + w)
    let s0 := (rotr32 2 a) ^^^ (rotr32 13 a) ^^^ (rotr32 22 a)
    let mj := (a &&& b) ^^^ (a &&& c) ^^^ (b &&& c)
    let t2 := w32 (s0 + mj)
    [w32 (t1 + t2), a, b, c, w32 (d + t1), e, f, g]
  | st => st

/-- SHA-256 compression of one 64-byte block into the running hash. -/
def compress256 (hs : List Nat) (block : List Nat) : List Nat :=
  let ws := sched256 (toWords4 block) 48
  let st := (List.range 64).foldl (fun st i => round256 (ws.getD i 0) (k256.getD i 0) st) hs
  (hs.zip st).map (fun p => w32 (p.1 + p.2))

/-- SHA-256 digest (as bytes) of a byte list. -/
def sha256Bytes (msg : List Nat) : List Nat :=
  let hs := (chunks 64 (shaPad 64 8 msg)).foldl compress256 h256init
  hs.foldr (fun h acc => [(h >>> 24) % 256, (h >>> 16) % 256, (h >>> 8) % 256, h % 256] ++ acc) []

/-- Lowercase hexadecimal digit. -/
def hexDigit (n : Nat) : Char := (("0123456789abcdef").data.getD n '0')

/-- Lowercase hexadecimal rendering of a byte list, as `digest('hex')`. -/
def hexStr (bs : List Nat) : String :=
  ⟨bs.foldr (fun b acc => hexDigit (b / 16) :: hexDigit (b % 16) :: acc) []⟩

/-- SHA-512 round constants (FIPS 180-4, section 4.2.3). -/
def k512 : List Nat := [4794697086780616226, 8158064640168781261, 13096744586834688815, 16840607885511220156, 4131703408338449720, 6480981068601479193, 10538285296894168987, 12329834152419229976, 15566598209576043074, 1334009975649890238, 2608012711638119052, 6128411473006802146, 8268148722764581231, 9286055187155687089, 11230858885718282805, 13951009754708518548, 16472876342353939154, 17275323862435702243, 1135362057144423861, 2597628984639134821, 3308224258029322869, 5365058923640841347, 6679025012923562964, 8573033837759648693, 10970295158949994411, 12119686244451234320, 12683024718118986047, 13788192230050041572, 14330467153632333762, 15395433587784984357, 489312712824947311, 1452737877330783856, 2861767655752347644, 3322285676063803686, 5560940570517711597, 5996557281743188959, 7280758554555802590, 8532644243296465576, 9350256976987008742, 10552545826968843579, 11727347734174303076, 12113106623233404929, 14000437183269869457, 14369950271660146224, 15101387698204529176, 15463397548674623760, 17586052441742319658, 1182934255886127544, 1847814050463011016, 2177327727835720531, 2830643537854262169, 3796741975233480872, 4115178125766777443, 5681478168544905931, 6601373596472566643, 7507060721942968483, 8399075790359081724, 8693463985226723168, 9568029438360202098, 10144078919501101548, 10430055236837252648, 11840083180663258601, 13761210420658862357, 14299343276471374635, 14566680578165727644, 15097957966210449927, 16922976911328602910, 17689382322260857208, 500013540394364858, 748580250866718886, 1242879168328830382, 1977374033974150939, 2944078676154940804, 3659926193048069267, 4368137639120453308, 4836135668995329356, 5532061633213252278, 6448918945643986474, 6902733635092675308, 7801388544844847127]

/-- SHA-512 initial hash value (FIPS 180-4, section 5.3.5). -/
def h512init : List Nat := [7640891576956012808, 13503953896175478587, 4354685564936845355, 11912009170470909681, 5840696475078001361, 11170449401992604703, 2270897969802886507, 6620516959819538809]

/-- SHA-384 initial hash value (FIPS 180-4, section 5.3.4). -/
def h384init : List Nat := [14680500436340154072, 7105036623409894663, 10473403895298186519, 1526699215303891257, 7436329637833083697, 10282925794625328401, 15784041429090275239, 5167115440072839076]

/-- SHA-512 message schedule: extend 16 words to 80. -/
def sched512 (ws : List Nat) : Nat → List Nat
  | 0 => ws
  | n + 1 =>
    let ws' := sched512 ws n
    let i := ws'.length
    let g := fun j => ws'.getD (i - j) 0
    let s0 := (rotr64 1 (g 15)) ^^^ (rotr64 8 (g 15)) ^^^ ((g 15) >>> 7)
    let s1 := (rotr64 19 (g 2)) ^^^ (rotr64 61 (g 2)) ^^^ ((g 2) >>> 6)
    ws' ++ [w64 (g 16 + s0 + g 7 + s1)]

/-- One SHA-512 compression round. -/
def round512 (w k : Nat) (st : List Nat) : List Nat :=
  match st with
  | [a, b, c, d, e, f, g, h] =>
    let s1 := (rotr64 14 e) ^^^ (rotr64 18 e) ^^^ (rotr64 41 e)
    let ch := (e &&& f) ^^^ ((18446744073709551615 - e) &&& g)
    let t1 := w64 (h + s1 + ch + k + w)
    let s0 := (rotr64 28 a) ^^^ (rotr64 34 a) ^^^ (rotr64 39 a)
    let mj := (a &&& b) ^^^ (a &&& c) ^^^ (b &&& c)
    let t2 := w64 (s0 + mj)
    [w64 (t1 + t2), a, b, c, w64 (d + t1), e, f, g]
  | st => st

/-- SHA-512 compression of one 128-byte block into the running hash. -/
def compress512 (hs : List Nat) (block : List Nat) : List Nat :=
  let ws := sched512 (toWords8 block) 64
  let st := (List.range 80).foldl (fun st i => round512 (ws.getD i 0) (k512.getD i 0) st) hs
  (hs.zip st).map (fun p => w64 (p.1 + p.2))

/-- Big-endian bytes of a 64-bit word. -/
def word8Bytes (h : Nat) : List Nat :=
  [(h >>> 56) % 256, (h >>> 48) % 256, (h >>> 40) % 256, (h >>> 32) % 256,
   (h >>> 24) % 256, (h >>> 16) % 256, (h >>> 8) % 256, h % 256]

/-- SHA-512 digest (as bytes) of a byte list. -/
def sha512Bytes (msg : List Nat) : List Nat :=
  let hs := (chunks 128 (shaPad 128 16 msg)).foldl compress512 h512init
  hs.foldr (fun h acc => word8Bytes h ++ acc) []

/-- SHA-384 digest (as bytes) of a byte list: SHA-512 with its own initial
value, truncated to the first 48 bytes. -/
def sha384Bytes (msg : List Nat) : List Nat :=
  let hs := (chunks 128 (shaPad 128 16 msg)).foldl compress512 h384init
  (hs.take 6).foldr (fun h acc => word8Bytes h ++ acc) []

/-- The three fixed-width digest algorithms of `src/utils/hash.ts`. -/
inductive ShaAlg
  | s256
  | s384
  | s512
deriving DecidableEq

/-- Digest bytes for one of the three fixed-width algorithms. -/
def shaBytes : ShaAlg → List Nat → List Nat
  | .s256 => sha256Bytes
  | .s384 => sha384Bytes
  | .s512 => sha512Bytes

/-- Output encodings supported by the hashing layer. -/
inductive Enc
  | hex
  | base64
  | base64url
deriving DecidableEq

/-- The base64 alphabet. -/
def b64Alpha : List Char :=
  ("ABCDEFGHIJKLMNOPQRSTUVWXYZabcdefghijklmnopqrstuvwxyz0123456789+/").data

/-- The base64url alphabet. -/
def b64urlAlpha : List Char :=
  ("ABCDEFGHIJKLMNOPQRSTUVWXYZabcdefghijklmnopqrstuvwxyz0123456789-_").data

/-- Base64 encoding of bytes over a given alphabet; `pad` selects whether
final `=` padding is emitted (Node pads 'base64' but not 'base64url'). -/
def b64Core (alpha : List Char) (pad : Bool) : List Nat → List Char
  | a :: b :: c :: rest =>
    let n := (a * 256 + b) * 256 + c
    alpha.getD (n >>> 18) 'A' :: alpha.getD ((n >>> 12) % 64) 'A' ::
      alpha.getD ((n >>> 6) % 64) 'A' :: alpha.getD (n % 64) 'A' :: b64Core alpha pad rest
  | [a, b] =>
    let n := (a * 256 + b) * 4
    alpha.getD (n >>> 12) 'A' :: alpha.getD ((n >>> 6) % 64) 'A' :: alpha.getD (n % 64) 'A' ::
      (if pad then ['='] else [])
  | [a] =>
    let n := a * 16
    alpha.getD (n >>> 6) 'A' :: alpha.getD (n % 64) 'A' :: (if pad then ['=', '='] else [])
  | [] => []

/-- `buffer.toString(encoding)` / `digest(encoding)` byte-to-text encodings. -/
def encodeBytes : Enc → List Nat → String
  | .hex, bs => hexStr bs
  | .base64, bs => ⟨b64Core b64Alpha true bs⟩
  | .base64url, bs => ⟨b64Core b64urlAlpha false bs⟩

/-- Value of a hexadecimal digit character, if any. -/
def hexVal (c : Char) : Option Nat :=
  if '0' ≤ c ∧ c ≤ '9' then some (c.toNat - 48)
  else if 'a' ≤ c ∧ c ≤ 'f' then some (c.toNat - 87)
  else if 'A' ≤ c ∧ c ≤ 'F' then some (c.toNat - 70)
  else none

/-- `Buffer.from(s, 'hex')`: parse hexadecimal digit pairs into bytes,
stopping at the first non-hex pair. -/
def hexToBytes : List Char → List Nat
  | a :: b :: rest =>
    match hexVal a, hexVal b with
    | some x, some y => (16 * x + y) :: hexToBytes rest
    | _, _ => []
  | _ => []

/-- `sha256(data, encoding)` from `src/utils/hash.ts`. -/
def sha256 (data : String) (encoding : Enc := .hex) : String :=
  encodeBytes encoding (sha256Bytes (utf8 data))

/-- `sha384(data, encoding)` from `src/utils/hash.ts`. -/
def sha384 (data : String) (encoding : Enc := .hex) : String :=
  encodeBytes encoding (sha384Bytes (utf8 data))

/-- `sha512(data, encoding)` from `src/utils/hash.ts`. -/
def sha512 (data : String) (encoding : Enc := .hex) : String :=
  encodeBytes encoding (sha512Bytes (utf8 data))

/-- Hex digest of a string under one of the three fixed-width algorithms
(`createHash(algorithm).update(s).digest('hex')`). -/
def shaHex (a : ShaAlg) (s : String) : String := hexStr (shaBytes a (utf8 s))

/-- `n`-fold iterated hex hashing, the `for`-loop pattern of `hash` and
`shaInfinity` in `src/utils/hash.ts`. -/
def iterHash (a : ShaAlg) : Nat → String → String
  | 0, s => s
  | n + 1, s => iterHash a n (shaHex a s)

/-- `mixHashes(hash1, hash2, algorithm)` from `src/utils/hash.ts`. -/
def mixHashes (hash1 hash2 : String) (algorithm : ShaAlg) : String :=
  shaHex algorithm (hash1 ++ ":" ++ hash2)

/-- The per-round algorithm rotation of `shaInfinity`. -/
def SHA_INFINITY_ALGORITHMS : List ShaAlg := [.s256, .s384, .s512]

/-- `shaInfinity(data, baseSalt, baseIterations, encoding)` from
`src/utils/hash.ts`. `gensalt` stands for the `generateSalt(32)` value used
when `baseSalt` is falsy (empty); it is a parameter because the source draws
it from `randomBytes`. Round iteration counts are
`floor(baseIterations * 1.5^round)`, computed exactly as
`baseIterations * 3^round / 2^round` (the source's double-precision product
is exact for every realistic iteration count). -/
def shaInfinity (data baseSalt gensalt : String) (baseIterations : Nat) (encoding : Enc) :
    String :=
  let salt := if baseSalt = "" then gensalt else baseSalt
  let result := (List.range 7).foldl
    (fun result round =>
      let algorithm := SHA_INFINITY_ALGORITHMS.getD (round % 3) .s256
      let roundSalt := sha256 (salt ++ ":round:" ++ toString round ++ ":" ++ result.take 16)
      let iterations := baseIterations * 3 ^ round / 2 ^ round
      let roundResult := iterHash algorithm iterations (result ++ ":" ++ roundSalt)
      mixHashes result roundResult algorithm)
    data
  encodeBytes encoding (sha512Bytes (utf8 result))

/-- The four algorithm names accepted by `HashOptions.algorithm`. -/
inductive HashAlg
  | sha256
  | sha384
  | sha512
  | sha_infinity
deriving DecidableEq

/-- The fixed-width digest behind a non-infinity `HashAlg`. -/
def HashAlg.core : HashAlg → ShaAlg
  | .sha256 => .s256
  | .sha384 => .s384
  | .sha512 => .s512
  | .sha_infinity => .s512

/-- `Partial<HashOptions>`: absent fields fall back to `DEFAULT_OPTIONS`
(sha256, 100000 iterations, empty salt, hex). -/
structure HashOptions where
  algorithm : Option HashAlg := none
  iterations : Option Nat := none
  salt : Option String := none
  encoding : Option Enc := none

/-- `HashResult` from `src/types/index.ts`. -/
structure HashResult where
  hash : String
  algorithm : HashAlg
  iterations : Nat
  salt : String
  timestamp : Nat

/-- `HashVerification` from `src/types/index.ts`. -/
structure HashVerification where
  valid : Bool
  hash : HashResult
  input : String

/-- `hash(data, options)` from `src/utils/hash.ts`. `gensalt` stands for the
`generateSalt(32)` value used when the resolved salt is falsy (empty), and
`timestamp` for `Date.now()`; both are parameters because the source draws
them from the environment. -/
def hash (data : String) (options : HashOptions) (gensalt : String) (timestamp : Nat) :
    HashResult :=
  let algorithm := options.algorithm.getD .sha256
  let iterations := options.iterations.getD 100000
  let encoding := options.encoding.getD .hex
  let salt := if options.salt.getD "" = "" then gensalt else options.salt.getD ""
  let result :=
    match algorithm with
    | .sha_infinity => shaInfinity data salt gensalt iterations encoding
    | a =>
      let r := iterHash a.core iterations (data ++ ":" ++ salt)
      match encoding with
      | .hex => r
      | e => encodeBytes e (hexToBytes r.data)
  { hash := result, algorithm := algorithm, iterations := iterations, salt := salt,
    timestamp := timestamp }

/-- `timingSafeCompare(a, b)` from `src/utils/hash.ts`: length check followed
by `timingSafeEqual` over the UTF-8 buffers, which decides exactly string
equality. -/
def timingSafeCompare (a b : String) : Bool :=
  if a.length ≠ b.length then false else a == b

/-- `verify(data, hashResult)` from `src/utils/hash.ts`: recompute with the
recorded algorithm, iterations and salt, always with hex encoding, and
compare in constant time. `gensalt`/`timestamp` feed the inner `hash` call. -/
def verify (data : String) (hashResult : HashResult) (gensalt : String) (timestamp : Nat) :
    HashVerification :=
  let recomputed := hash data
    { algorithm := some hashResult.algorithm, iterations := some hashResult.iterations,
      salt := some hashResult.salt, encoding := some .hex } gensalt timestamp
  { valid := timingSafeCompare recomputed.hash hashResult.hash, hash := hashResult,
    input := data }

/-! ### JSON values and `JSON.stringify` with an array replacer

`hashState` serializes with `JSON.stringify(state, Object.keys(state).sort())`.
Per ECMA-262, an array replacer becomes the *PropertyList*: at **every** object
level of the traversal the serialized keys are exactly the PropertyList
entries (in PropertyList order) that exist on that object — nested keys that
do not appear in the top-level key set are dropped. The embedding reproduces
that behaviour exactly. -/

/-- A JSON-like value (`Record<string, unknown>` payloads). Numbers are
modelled as integers, which covers every value the claims exercise. -/
inductive JsonValue where
  | null
  | bool (b : Bool)
  | num (n : Int)
  | str (s : String)
  | arr (elems : List JsonValue)
  | obj (fields : List (String × JsonValue))

/-- JSON escaping of a single character (ECMA-262 QuoteJSONString). -/
def jsonEscChar (c : Char) : List Char :=
  if c = '"' then ['\\', '"']
  else if c = '\\' then ['\\', '\\']
  else if c.toNat = 8 then ['\\', 'b']
  else if c.toNat = 9 then ['\\', 't']
  else if c.toNat = 10 then ['\\', 'n']
  else if c.toNat = 12 then ['\\', 'f']
  else if c.toNat = 13 then ['\\', 'r']
  else if c.toNat < 32 then
    ['\\', 'u', '0', '0', hexDigit (c.toNat / 16), hexDigit (c.toNat % 16)]
  else [c]

/-- JSON string quoting. -/
def jsonQuote (s : String) : String :=
  ⟨'"' :: s.data.foldr (fun c acc => jsonEscChar c ++ acc) ['"']⟩

mutual

/-- Serialization of a JSON value under PropertyList `K`. Object fields are
pre-serialized by `serFields` (preserving keys and order), then assembled by
walking `K`: exactly the ECMA-262 traversal, in which each object level emits
the PropertyList keys present on it, in PropertyList order. -/
def serVal (K : List String) : JsonValue → String
  | .null => "null"
  | .bool b => cond b ("true") ("false")
  | .num n => toString n
  | .str s => jsonQuote s
  | .arr es => "[" ++ String.intercalate (",") (serList K es) ++ "]"
  | .obj fs => "\x7b" ++ String.intercalate (",")
      (K.filterMap (fun k =>
        (List.lookup k (serFields K fs)).map (fun sv => jsonQuote k ++ ":" ++ sv)))
      ++ "\x7d"

/-- Serialization of each array element. -/
def serList (K : List String) : List JsonValue → List String
  | [] => []
  | e :: es => serVal K e :: serList K es

/-- Serialization of each object field value, keys preserved. -/
def serFields (K : List String) : List (String × JsonValue) → List (String × String)
  | [] => []
  | (k, v) :: fs => (k, serVal K v) :: serFields K fs

end

/-- The JavaScript `Array.prototype.sort` default comparator on one pair of
characters: compare numeric code units (all concrete keys in this development
are ASCII, where code-unit and code-point order coincide). -/
def charLtB (a b : Char) : Bool := decide (a < b)

/-- Lexicographic order on character lists, as the JS default sort compares
strings. -/
def charListLt : List Char → List Char → Bool
  | [], [] => false
  | [], _ :: _ => true
  | _ :: _, [] => false
  | a :: as, b :: bs => if charLtB a b then true else if charLtB b a then false
      else charListLt as bs

/-- Strict string order of the JS default sort comparator. -/
def strLtB (a b : String) : Bool := charListLt a.data b.data

/-- The matching reflexive order. -/
def strLeB (a b : String) : Bool := !strLtB b a

/-- Insert into a sorted list, keeping existing smaller elements in front. -/
def orderedInsertJS (x : String) : List String → List String
  | [] => [x]
  | y :: ys => if strLtB y x then y :: orderedInsertJS x ys else x :: y :: ys

/-- `Array.prototype.sort()` on strings: stable ascending sort under the
default comparator, realized as insertion sort. -/
def sortJS : List String → List String
  | [] => []
  | x :: xs => orderedInsertJS x (sortJS xs)

/-- The sorted top-level key list `Object.keys(state).sort()`. -/
def sortedKeys (state : List (String × JsonValue)) : List String :=
  sortJS (state.map Prod.fst)

/-- `hashState(state)` from `src/utils/hash.ts`: SHA-256 of the payload
serialized via `JSON.stringify(state, Object.keys(state).sort())`. -/
def hashState (state : List (String × JsonValue)) : String :=
  let sorted := serVal (sortedKeys state) (.obj state)
  sha256 sorted

/-! ### The state manager (`src/state/manager.ts`)

JavaScript `Map`s are association lists with unique keys; `Map.set` replaces
in place (keeping the position) or appends. Timestamps (`new Date()...`),
random ids (`hashId`) and the outcomes of the remote adapters are passed in
as explicit parameters. -/

/-- `StateRecord` from `src/types/index.ts`. -/
structure StateRecord where
  id : String
  type : String
  data : List (String × JsonValue)
  hash : String
  version : Nat
  createdAt : String
  updatedAt : String
  syncedTo : List String

/-- The JSON object a `StateRecord` serializes to, fields in the order of the
object literals in `manager.ts`. -/
def recordToJson (r : StateRecord) : JsonValue :=
  .obj [(("id"), .str r.id), (("type"), .str r.type), (("data"), .obj r.data),
        (("hash"), .str r.hash), (("version"), .num (r.version : Int)),
        (("createdAt"), .str r.createdAt), (("updatedAt"), .str r.updatedAt),
        (("syncedTo"), .arr (r.syncedTo.map .str))]

/-- `Map.set`: replace in place if the key exists, else append. -/
def mapSet (m : List (String × α)) (k : String) (v : α) : List (String × α) :=
  if m.any (fun p => p.1 == k) then
    m.map (fun p => if p.1 == k then (k, v) else p)
  else m ++ [(k, v)]

/-- The manager's `localState` (plus the `syncInProgress` flag). -/
structure MgrState where
  records : List (String × StateRecord)
  lastSync : String
  hash : String
  syncInProgress : Bool

/-- The object `updateLocalHash` hashes:
`\x7brecords: Object.fromEntries(records), lastSync\x7d`. -/
def storeFields (records : List (String × StateRecord)) (lastSync : String) :
    List (String × JsonValue) :=
  [(("records"), .obj (records.map (fun p => (p.1, recordToJson p.2)))),
   (("lastSync"), .str lastSync)]

/-- `updateLocalHash()` from `manager.ts`. -/
def updateLocalHash (st : MgrState) : MgrState :=
  { st with hash := hashState (storeFields st.records st.lastSync) }

/-- `\x7b...record.data, ...data\x7d`: JS object spread. Keys of `base` keep
their positions (values overridden by `upd` where present); keys only in
`upd` are appended in `upd` order. -/
def spreadMerge (base upd : List (String × JsonValue)) : List (String × JsonValue) :=
  base.map (fun p =>
    match List.lookup p.1 upd with
    | some v => (p.1, v)
    | none => p) ++ upd.filter (fun q => !base.any (fun p => p.1 == q.1))

/-- `create(type, data)`; `id` stands for the random `hashId(type)` and `now`
for `new Date().toISOString()`. -/
def create (st : MgrState) (ty : String) (data : List (String × JsonValue)) (id now : String) :
    StateRecord × MgrState :=
  let record : StateRecord :=
    { id := id, type := ty, data := data, hash := hashState data, version := 1,
      createdAt := now, updatedAt := now, syncedTo := [] }
  (record, updateLocalHash { st with records := mapSet st.records id record })

/-- `update(id, data)` from `manager.ts`. -/
def update (st : MgrState) (id : String) (data : List (String × JsonValue)) (now : String) :
    Option StateRecord × MgrState :=
  match List.lookup id st.records with
  | none => (none, st)
  | some record =>
    let updatedData := spreadMerge record.data data
    let updated : StateRecord :=
      { record with
        data := updatedData, hash := hashState updatedData,
        version := record.version + 1, updatedAt := now, syncedTo := [] }
    (some updated, updateLocalHash { st with records := mapSet st.records id updated })

/-- `delete(id)` from `manager.ts` (named `deleteRecord` here). -/
def deleteRecord (st : MgrState) (id : String) : Bool × MgrState :=
  if st.records.any (fun p => p.1 == id) then
    (true, updateLocalHash { st with records := st.records.filter (fun p => !(p.1 == id)) })
  else (false, st)

/-- The shape `importState` reads (`records` and `lastSync` may be absent). -/
structure ExportDoc where
  records : Option (List (String × StateRecord))
  lastSync : Option String

/-- `importState(state)` from `manager.ts`. -/
def importState (st : MgrState) (state : ExportDoc) : MgrState :=
  let st' := match state.records with
    | some rs => { st with records := rs }
    | none => st
  updateLocalHash { st' with lastSync := state.lastSync.getD "" }

/-- `getSyncStatus()` from `manager.ts`. -/
structure SyncStatus where
  lastSync : String
  recordCount : Nat
  pendingSync : Nat
  hash : String

/-- `getSyncStatus()` from `manager.ts`. -/
def getSyncStatus (st : MgrState) : SyncStatus :=
  { lastSync := st.lastSync, recordCount := st.records.length,
    pendingSync :=
      ((st.records.map Prod.snd).filter (fun r => decide (r.syncedTo.length < 2))).length,
    hash := st.hash }

/-- `clear()` from `manager.ts`: empties the map and resets `lastSync` and
`hash` to the empty string (no recomputation). -/
def clear (st : MgrState) : MgrState :=
  { st with records := [], lastSync := "", hash := "" }

/-! ### Sync engine types -/

/-- `StateConflict.resolution` values. -/
inductive ResKind
  | localK
  | remoteK
  | mergeK
deriving DecidableEq

/-- `StateConflict` from `src/types/index.ts` (the engine always sets
`field := "data"` and object payloads on both sides). -/
structure StateConflictR where
  recordId : String
  field : String
  localValue : List (String × JsonValue)
  remoteValue : List (String × JsonValue)
  resolution : Option ResKind

/-- `StateSyncResult` from `src/types/index.ts`. -/
structure StateSyncResult where
  success : Bool
  synced : List String
  failed : List String
  conflicts : List StateConflictR

/-- The conflict resolution strategies of `StateManagerConfig`. -/
inductive Policy
  | localP
  | remoteP
  | manualP
  | latestP
deriving DecidableEq

/-- The slice of `StateManagerConfig` the sync paths read. -/
structure MgrConfig where
  conflictResolution : Policy

/-- `SyncOptions` from `manager.ts`. -/
inductive Direction
  | push
  | pull
  | bidirectional
deriving DecidableEq

/-- `SyncOptions` from `manager.ts`. -/
structure SyncOpts where
  force : Bool := false
  direction : Option Direction := none
  includeTypes : Option (List String) := none
  excludeTypes : Option (List String) := none

/-- `resolveConflict(local, remote)` from `manager.ts`. `getTime` is
`s => new Date(s).getTime()`, a parameter of the model. -/
def resolveConflict (cfg : MgrConfig) (getTime : String → Int)
    (localR remoteR : StateRecord) : Option ResKind × Option StateRecord :=
  match cfg.conflictResolution with
  | .localP => (some .localK, some localR)
  | .remoteP =>
    (some .remoteK, some { remoteR with syncedTo := [("cloudflare"), ("salesforce")] })
  | .latestP =>
    if getTime localR.updatedAt ≥ getTime remoteR.updatedAt then (some .localK, some localR)
    else (some .remoteK, some { remoteR with syncedTo := [("cloudflare"), ("salesforce")] })
  | .manualP => (none, none)

/-- The parsed `\x7bdata, hash, updatedAt\x7d` payload stored under the KV
key, as `storeState` writes it: `data` is the `\x7brecords, lastSync,
hash\x7d` state payload (`records` absent when the JSON lacks that key). -/
structure RemoteData where
  records : Option (List (String × StateRecord))
  lastSync : String
  innerHash : String

/-- The JSON fields of a `RemoteData`, as `hashState` receives them inside
`retrieveState` (key order as `pushToRemote` builds the payload). -/
def remoteDataFields (d : RemoteData) : List (String × JsonValue) :=
  (match d.records with
   | some rs => [(("records"), .obj (rs.map (fun p => (p.1, recordToJson p.2))))]
   | none => []) ++ [(("lastSync"), .str d.lastSync), (("hash"), .str d.innerHash)]

/-- A stored KV blob: the parsed `data` plus the `hash` recorded next to it. -/
structure StoredBlob where
  data : RemoteData
  hash : String

/-- What the KV store holds under the state key: nothing, an unparsable
value, or a parsed blob. -/
inductive KVContent
  | missing
  | malformed
  | stored (blob : StoredBlob)

/-- `retrieveState`'s `data` payload from `src/clients/cloudflare.ts`. -/
structure RetrievedState where
  state : RemoteData
  hash : String
  valid : Bool

/-- `APIResponse` as far as the pull path reads it. -/
structure APIRespRetrieve where
  success : Bool
  data : Option RetrievedState

/-- `retrieveState(key)` from `src/clients/cloudflare.ts`: on a stored blob it
recomputes `hashState(parsed.data)` and compares with the recorded hash to
produce `valid`; a missing value or a parse failure yields no data. -/
def retrieveState : KVContent → APIRespRetrieve
  | .missing => { success := false, data := none }
  | .malformed => { success := false, data := none }
  | .stored b =>
    { success := true,
      data := some { state := b.data, hash := b.hash,
                     valid := hashState (remoteDataFields b.data) == b.hash } }

/-- Outcome of the Cloudflare pull call: a thrown error or a KV fetch. -/
inductive CFPull
  | throwErr (msg : String)
  | fetched (kv : KVContent)

/-- Outcome of a store/syncState call: a thrown error or a success flag. -/
inductive PushOut
  | throwErr (msg : String)
  | ok (success : Bool)

/-- Environment of a configured Cloudflare client. -/
structure CFEnv where
  pull : CFPull
  push : PushOut

/-- A Salesforce record: its `Id` plus its full JSON fields. -/
structure SFRec where
  Id : String
  json : List (String × JsonValue)

/-- `CRMState` as `mergeCRMState` consumes it. -/
structure CRMStateR where
  accounts : List SFRec
  contacts : List SFRec
  opportunities : List SFRec

/-- Outcome of `salesforce.getCRMState()`: a thrown error, or a response
whose `data` may be absent (unsuccessful call). -/
inductive SFPull
  | throwErr (msg : String)
  | ok (data : Option CRMStateR)

/-- Environment of a configured Salesforce client. -/
structure SFEnv where
  pull : SFPull
  push : PushOut

/-- Everything nondeterministic one `sync()` run observes: which clients are
configured and what their calls return, the `Date` parser, and the timestamp
used by `mergeCRMState`. -/
structure SyncEnv where
  cloudflare : Option CFEnv
  salesforce : Option SFEnv
  getTime : String → Int
  now : String

/-- Accumulator of the Cloudflare merge loop. -/
structure PullAcc where
  st : MgrState
  synced : List String
  conflicts : List StateConflictR

/-- One iteration of the `for (const [id, remoteRecord] of ...)` merge loop in
`pullFromRemote`. -/
def mergeStep (cfg : MgrConfig) (getTime : String → Int) (acc : PullAcc)
    (e : String × StateRecord) : PullAcc :=
  match List.lookup e.1 acc.st.records with
  | none =>
    { acc with
      st := { acc.st with
        records := mapSet acc.st.records e.1 { e.2 with syncedTo := [("cloudflare")] } },
      synced := acc.synced ++ [("cloudflare:") ++ e.1] }
  | some localR =>
    if e.2.hash != localR.hash then
      let res := resolveConflict cfg getTime localR e.2
      let acc' := { acc with
        conflicts := acc.conflicts ++
          [{ recordId := e.1, field := ("data"), localValue := localR.data,
             remoteValue := e.2.data, resolution := res.1 }] }
      match res.2 with
      | some rec =>
        { acc' with
          st := { acc'.st with records := mapSet acc'.st.records e.1 rec },
          synced := acc'.synced ++ [("cloudflare:") ++ e.1 ++ (":resolved")] }
      | none => acc'
    else acc

/-- What one adapter phase contributes: the updated state plus its `synced`,
`failed` and `conflicts` entries. -/
structure PhaseOut where
  st : MgrState
  synced : List String
  failed : List String
  conflicts : List StateConflictR

/-- The Cloudflare part of `pullFromRemote`. -/
def cfPullPhase (cfg : MgrConfig) (env : SyncEnv) (st : MgrState) : PhaseOut :=
  match env.cloudflare with
  | none => ⟨st, [], [], []⟩
  | some cf =>
    match cf.pull with
    | .throwErr msg => ⟨st, [], [("cloudflare:") ++ msg], []⟩
    | .fetched kv =>
      let kvResult := retrieveState kv
      match kvResult.data with
      | some d =>
        if kvResult.success && d.valid then
          match d.state.records with
          | some rrecs =>
            let acc := rrecs.foldl (mergeStep cfg env.getTime)
              { st := st, synced := [], conflicts := [] }
            ⟨acc.st, acc.synced, [], acc.conflicts⟩
          | none => ⟨st, [], [], []⟩
        else ⟨st, [], [], []⟩
      | none => ⟨st, [], [], []⟩

/-- One `if (!records.has(id)) records.set(id, ...)` CRM adoption step. -/
def crmAdd (now ty idStart : String) (recs : List (String × StateRecord)) (a : SFRec) :
    List (String × StateRecord) :=
  let id := idStart ++ a.Id
  if (List.lookup id recs).isSome then recs
  else mapSet recs id
    { id := id, type := ty, data := a.json, hash := hashState a.json, version := 1,
      createdAt := now, updatedAt := now, syncedTo := [("salesforce")] }

/-- `mergeCRMState(crmState)` from `manager.ts`. -/
def mergeCRMState (now : String) (st : MgrState) (crm : CRMStateR) : MgrState :=
  let recs1 := crm.accounts.foldl (crmAdd now ("crm_account") ("crm_account_")) st.records
  let recs2 := crm.contacts.foldl (crmAdd now ("crm_contact") ("crm_contact_")) recs1
  let recs3 :=
    crm.opportunities.foldl (crmAdd now ("crm_opportunity") ("crm_opportunity_")) recs2
  { st with records := recs3 }

/-- The Salesforce part of `pullFromRemote`. -/
def sfPullPhase (env : SyncEnv) (st : MgrState) : PhaseOut :=
  match env.salesforce with
  | none => ⟨st, [], [], []⟩
  | some sf =>
    match sf.pull with
    | .throwErr msg => ⟨st, [], [("salesforce:") ++ msg], []⟩
    | .ok none => ⟨st, [], [], []⟩
    | .ok (some crm) => ⟨mergeCRMState env.now st crm, [("salesforce:crm_state")], [], []⟩

/-- `pullFromRemote(options)` from `manager.ts` (the options are unused by the
pull path). Ends with `updateLocalHash()`. -/
def pullFromRemote (cfg : MgrConfig) (env : SyncEnv) (st : MgrState) :
    StateSyncResult × MgrState :=
  let p1 := cfPullPhase cfg env st
  let p2 := sfPullPhase env p1.st
  ({ success := true, synced := p1.synced ++ p2.synced, failed := p1.failed ++ p2.failed,
     conflicts := p1.conflicts },
   updateLocalHash p2.st)

/-- The include/exclude type filter of `pushToRemote` (an empty `includeTypes`
array is truthy in JS and excludes every type, as here). -/
def typeOk (opts : SyncOpts) (r : StateRecord) : Bool :=
  (match opts.includeTypes with
   | some ts => ts.contains r.type
   | none => true) &&
  (match opts.excludeTypes with
   | some ts => !ts.contains r.type
   | none => true)

/-- The record selection at the top of `pushToRemote`: type-filtered records
with `force || syncedTo.length < 2`. -/
def recordsToSync (opts : SyncOpts) (records : List (String × StateRecord)) :
    List StateRecord :=
  (records.map Prod.snd).filter
    (fun r => typeOk opts r && (opts.force || decide (r.syncedTo.length < 2)))

/-- The `record.syncedTo.push(store)` loop over the selected records. -/
def markSynced (store : String) (ids : List String) (st : MgrState) : MgrState :=
  { st with records := st.records.map (fun p =>
      if ids.contains p.1 && !p.2.syncedTo.contains store then
        (p.1, { p.2 with syncedTo := p.2.syncedTo ++ [store] })
      else p) }

/-- One adapter leg of `pushToRemote` (store name + push outcome). -/
def pushLeg (store : String) (push : Option PushOut) (sel : List StateRecord)
    (ids : List String) (st : MgrState) : PhaseOut :=
  match push with
  | none => ⟨st, [], [], []⟩
  | some (.throwErr msg) => ⟨st, [], [store ++ (":") ++ msg], []⟩
  | some (.ok success) =>
    if success then
      ⟨markSynced store ids st, sel.map (fun r => store ++ (":") ++ r.id), [], []⟩
    else ⟨st, [], [], []⟩

/-- `pushToRemote(options)` from `manager.ts`: select once, then push to
Cloudflare and Salesforce independently. -/
def pushToRemote (env : SyncEnv) (opts : SyncOpts) (st : MgrState) :
    StateSyncResult × MgrState :=
  let sel := recordsToSync opts st.records
  let ids := sel.map (fun r => r.id)
  let p1 := pushLeg ("cloudflare") (env.cloudflare.map (fun c => c.push)) sel ids st
  let p2 := pushLeg ("salesforce") (env.salesforce.map (fun c => c.push)) sel ids p1.st
  ({ success := true, synced := p1.synced ++ p2.synced, failed := p1.failed ++ p2.failed,
     conflicts := [] }, p2.st)

/-- An empty sync result. -/
def emptyRes : StateSyncResult :=
  { success := true, synced := [], failed := [], conflicts := [] }

/-- `sync(options)` from `manager.ts`. `t` stands for the
`new Date().toISOString()` written into `lastSync` on completion. A call
while `syncInProgress` is set returns the rejection result and leaves the
state untouched. -/
def sync (cfg : MgrConfig) (env : SyncEnv) (options : SyncOpts) (t : String) (m : MgrState) :
    StateSyncResult × MgrState :=
  if m.syncInProgress then
    ({ success := false, synced := [], failed := [("Sync already in progress")],
       conflicts := [] }, m)
  else
    let direction := options.direction.getD .bidirectional
    let pullPR :=
      if direction = .pull ∨ direction = .bidirectional then pullFromRemote cfg env m
      else (emptyRes, m)
    let pushPR :=
      if direction = .push ∨ direction = .bidirectional then pushToRemote env options pullPR.2
      else (emptyRes, pullPR.2)
    let failed := pullPR.1.failed ++ pushPR.1.failed
    ({ success := failed.isEmpty, synced := pullPR.1.synced ++ pushPR.1.synced,
       failed := failed, conflicts := pullPR.1.conflicts },
     { pushPR.2 with lastSync := t, syncInProgress := false })

/-! ### Auxiliary notions used by the claim statements -/

/-- A map with unique keys (every JS object / `Map` satisfies this). -/
abbrev keysNodup (m : List (String × α)) : Prop := (m.map Prod.fst).Nodup

/-- The C8 invariant: the hash exposed by `getSyncStatus` is the fingerprint
of the current records map together with the current `lastSync`. -/
abbrev storeInv (st : MgrState) : Prop :=
  (getSyncStatus st).hash = hashState (storeFields st.records st.lastSync)

/-- The number of remote stores actually configured on the engine (only the
Cloudflare and Salesforce clients take part in `sync`). -/
def configuredStores (env : SyncEnv) : Nat :=
  (if env.cloudflare.isSome then 1 else 0) + (if env.salesforce.isSome then 1 else 0)

/-- The push selection in the words of claim C6 (records whose `syncedTo` does
not yet cover the number of remote stores actually configured on the engine);
kept separate so it can be compared with `recordsToSync`, which the source
defines with the constant threshold 2. -/
def recordsToSyncSpec (env : SyncEnv) (opts : SyncOpts)
    (records : List (String × StateRecord)) : List StateRecord :=
  (records.map Prod.snd).filter
    (fun r => typeOk opts r && (opts.force || decide (r.syncedTo.length < configuredStores env)))

/-- `sync(\x7bdirection: 'pull'\x7d)`'s options. -/
def pullOpts : SyncOpts := { direction := some .pull }

/-- Well-formedness of the remote environment: a stored Cloudflare blob has
unique record keys (guaranteed in reality because the blob is parsed JSON). -/
def envWF (env : SyncEnv) : Bool :=
  match env.cloudflare with
  | some cf =>
    match cf.pull with
    | .fetched (.stored b) =>
      match b.data.records with
      | some rs => decide ((rs.map Prod.fst).Nodup)
      | none => true
    | _ => true
  | none => true

/-! ### Concrete fixtures for the counterexamples -/

/-- A fresh manager state (`localState` right after construction). -/
def mgr0 : MgrState := { records := [], lastSync := "", hash := "", syncInProgress := false }

/-- A record whose payload nests an object: `data = \x7ba: \x7bb: 1\x7d\x7d`. -/
def nestedRec (n : Int) : StateRecord :=
  { id := "r1", type := "deployment", data := [(("a"), .obj [(("b"), .num n)])],
    hash := hashState [(("a"), .obj [(("b"), .num n)])], version := 1,
    createdAt := "2024-01-01T00:00:00.000Z", updatedAt := "2024-01-01T00:00:00.000Z",
    syncedTo := [] }

/-- A flat record with payload `\x7benv: v\x7d`. -/
def flatRec (v : String) : StateRecord :=
  { id := "r1", type := "deployment", data := [(("env"), .str v)],
    hash := hashState [(("env"), .str v)], version := 1,
    createdAt := "2024-01-01T00:00:00.000Z", updatedAt := "2024-01-01T00:00:00.000Z",
    syncedTo := [] }

/-- A remote state payload holding exactly the record `r` under its id. -/
def remoteData1 (r : StateRecord) : RemoteData :=
  { records := some [(r.id, r)], lastSync := "2024-01-01T00:00:00.000Z", innerHash := "" }

/-- A Cloudflare environment serving blob `b`; pushes are not exercised. -/
def cfEnvOf (b : StoredBlob) : SyncEnv :=
  { cloudflare := some { pull := .fetched (.stored b), push := .ok false },
    salesforce := none, getTime := fun _ => 0, now := "2024-01-01T00:00:00.000Z" }

/-- An environment with no configured clients. -/
def emptyEnv : SyncEnv :=
  { cloudflare := none, salesforce := none, getTime := fun _ => 0,
    now := "2024-01-01T00:00:00.000Z" }

/-- An environment where only the Cloudflare client is configured (its KV key
is empty; pushes are not exercised). -/
def cfOnlyEnv : SyncEnv :=
  { cloudflare := some { pull := .fetched .missing, push := .ok false },
    salesforce := none, getTime := fun _ => 0, now := "2024-01-01T00:00:00.000Z" }

/-- A record already acknowledged by the only configured store, Cloudflare. -/
def pushedRec : StateRecord := { flatRec ("prod") with syncedTo := [("cloudflare")] }

/-- A store holding one record with a nested payload. -/
def nestedStore : MgrState :=
  { records := [(("r1"), nestedRec 1)], lastSync := "", hash := "",
    syncInProgress := false }

/-- A partial update that changes only the nested value. -/
def nestedPatch : List (String × JsonValue) := [(("a"), .obj [(("b"), .num 2)])]

/-- After a merge pass, the record stored under a remote entry's id either
matches the remote fingerprint or the conflict resolution would keep it
unchanged (policies `local`/`latest`-keeps-local store the local record back,
`manual` stores nothing). -/
def MergedAt (cfg : MgrConfig) (getTime : String → Int)
    (res : List (String × StateRecord)) (e : String × StateRecord) : Prop :=
  ∃ lr, List.lookup e.1 res = some lr ∧
    (lr.hash = e.2.hash ∨ (resolveConflict cfg getTime lr e.2).2 = some lr ∨
      (resolveConflict cfg getTime lr e.2).2 = none)

/-- Under the `remote` policy the merge pass always leaves the stored record
matching the remote fingerprint. -/
def MergedAtR (res : List (String × StateRecord)) (e : String × StateRecord) : Prop :=
  ∃ lr, List.lookup e.1 res = some lr ∧ lr.hash = e.2.hash

/-- A valid stored blob holding the `staging` record (its recorded hash is
the genuinely recomputed fingerprint, so `retrieveState` reports it valid). -/
def conflictBlob : StoredBlob :=
  { data := remoteData1 (flatRec ("staging")),
    hash := hashState (remoteDataFields (remoteData1 (flatRec ("staging")))) }

/-- A local store holding the conflicting `prod` version of the record. -/
def conflictStore : MgrState :=
  { records := [(("r1"), flatRec ("prod"))], lastSync := "", hash := "",
    syncInProgress := false }

/-- The record ids `mergeCRMState` derives from a CRM state. -/
def crmIds (crm : CRMStateR) : List String :=
  (crm.accounts.map (fun a => ("crm_account_") ++ a.Id) ++
    crm.contacts.map (fun a => ("crm_contact_") ++ a.Id)) ++
    crm.opportunities.map (fun a => ("crm_opportunity_") ++ a.Id)

/-- Every id the Salesforce pull would derive is already present in the
records map (trivially true when no successful CRM state is served). -/
def CRMPresent (env : SyncEnv) (recs : List (String × StateRecord)) : Prop :=
  match env.salesforce with
  | some sf =>
    match sf.pull with
    | .ok (some crm) => ∀ i ∈ crmIds crm, (List.lookup i recs).isSome = true
    | _ => True
  | none => True

/-- A one-account CRM state. -/
def crmOne : CRMStateR :=
  { accounts := [{ Id := ("001"), json := [(("Name"), .str ("Acme"))] }],
    contacts := [], opportunities := [] }

/-- An environment with both adapters configured: Cloudflare serves the valid
`conflictBlob`, Salesforce serves `crmOne`. -/
def fullEnv : SyncEnv :=
  { cloudflare := some { pull := .fetched (.stored conflictBlob), push := .ok false },
    salesforce := some { pull := .ok (some crmOne), push := .ok false },
    getTime := fun _ => 0, now := "2024-01-01T00:00:00.000Z" }

end BR

set_option maxRecDepth 1000000
set_option maxHeartbeats 2000000

theorem sortedKeys_check :
    BR.sortedKeys [(("b"), .num 1), (("a"), .num 2)] = [("a"), ("b")] := by decide

theorem hashState_flat_check :
    BR.hashState [(("b"), .num 1), (("a"), .num 2)] =
    "d3626ac30a87e6f7a6428233b3c68299976865fa5508e4267c5415c76af7a772" := by decide

theorem sha256_abc_check : BR.sha256 ("abc") =
    "ba7816bf8f01cfea414140de5dae2223b00361a396177a9cb410ff61f20015ad" := by decide

theorem sha512_abc_check : BR.sha512 ("abc") =
    "ddaf35a193617abacc417349ae20413112e6fa4e89a97ea20a9eeee64b55d39a2192992a274fc1a836ba3c23a3feebbd454d4423643ce80e2a9ac94fa54ca49f" := by decide

theorem sha384_abc_check : BR.sha384 ("abc") =
    "cb00753f45a35e8bb5a03d699ac65007272c32ab0eded1631a8b605a43ff5bed8086072ba1e7cc2358baeca134c825a7" := by decide

theorem hash_base64_check :
    (BR.hash ("a") ⟨some .sha256, some 1, some ("s"), some .base64⟩ ("g") 0).hash =
    "z59VjLZyPAtveFGSjoLui8wz/GRnIAOEx66G6R7Mq9A=" := by decide

namespace BR

/-! ### Order lemmas: the JS sort comparator is a linear order -/

theorem charListLt_irrefl : ∀ as, charListLt as as = false
  | [] => rfl
  | a :: as => by simp [charListLt, charLtB, charListLt_irrefl as]

theorem charListLt_trans : ∀ as bs cs, charListLt as bs = true → charListLt bs cs = true →
    charListLt as cs = true
  | [], [], _, h1, _ => by simp [charListLt] at h1
  | a :: as, [], _, h1, _ => by simp [charListLt] at h1
  | _, b :: bs, [], _, h2 => by simp [charListLt] at h2
  | [], b :: bs, c :: cs, _, _ => rfl
  | a :: as, b :: bs, c :: cs, h1, h2 => by
    simp only [charListLt, charLtB] at h1 h2 ⊢
    by_cases hab : a < b
    · by_cases hbc : b < c
      · simp [lt_trans hab hbc]
      · by_cases hcb : c < b
        · simp [hbc, hcb] at h2
        · have hbc' : b = c := le_antisymm (le_of_not_lt hcb) (le_of_not_lt hbc)
          subst hbc'
          simp [hab]
    · by_cases hba : b < a
      · simp [hab, hba] at h1
      · have hab' : a = b := le_antisymm (le_of_not_lt hba) (le_of_not_lt hab)
        subst hab'
        simp only [hab, decide_False, Bool.false_eq_true, if_false, lt_self_iff_false] at h1 ⊢
        by_cases hac : a < c
        · simp [hac]
        · by_cases hca : c < a
          · simp [hac, hca] at h2
          · simp only [hac, hca, decide_False, Bool.false_eq_true, if_false] at h2 ⊢
            exact charListLt_trans as bs cs h1 h2

theorem charListLt_trichot : ∀ as bs,
    charListLt as bs = true ∨ as = bs ∨ charListLt bs as = true
  | [], [] => .inr (.inl rfl)
  | [], _ :: _ => .inl rfl
  | _ :: _, [] => .inr (.inr rfl)
  | a :: as, b :: bs => by
    rcases lt_trichotomy a b with h | h | h
    · exact .inl (by simp [charListLt, charLtB, h])
    · subst h
      rcases charListLt_trichot as bs with h' | h' | h'
      · exact .inl (by simp [charListLt, charLtB, h'])
      · exact .inr (.inl (by rw [h']))
      · exact .inr (.inr (by simp [charListLt, charLtB, h']))
    · exact .inr (.inr (by simp [charListLt, charLtB, h]))

theorem strLtB_irrefl (a : String) : strLtB a a = false := charListLt_irrefl _

theorem strLtB_trans {a b c : String} (h1 : strLtB a b = true) (h2 : strLtB b c = true) :
    strLtB a c = true := charListLt_trans _ _ _ h1 h2

theorem strLtB_trichot (a b : String) : strLtB a b = true ∨ a = b ∨ strLtB b a = true := by
  rcases charListLt_trichot a.data b.data with h | h | h
  · exact .inl h
  · refine .inr (.inl ?_)
    cases a; cases b
    exact congrArg String.mk (by simpa using h)
  · exact .inr (.inr h)

theorem strLtB_asymm {a b : String} (h : strLtB a b = true) : strLtB b a = false := by
  rcases hba : strLtB b a with _ | _
  · rfl
  · have := strLtB_trans h hba
    rw [strLtB_irrefl] at this
    cases this

theorem strLeB_of_lt {a b : String} (h : strLtB a b = true) : strLeB a b = true := by
  unfold strLeB
  rw [strLtB_asymm h]
  rfl

theorem strLeB_of_not_lt {a b : String} (h : strLtB b a = false) : strLeB a b = true := by
  unfold strLeB
  rw [h]
  rfl

theorem strLeB_total (a b : String) : strLeB a b = true ∨ strLeB b a = true := by
  rcases strLtB_trichot a b with h | h | h
  · exact .inl (strLeB_of_lt h)
  · subst h
    exact .inl (strLeB_of_not_lt (strLtB_irrefl a))
  · exact .inr (strLeB_of_lt h)

theorem strLtB_of_not_le {a b : String} (h : strLeB a b = false) : strLtB b a = true := by
  unfold strLeB at h
  simpa using h

theorem strLeB_trans {a b c : String} (h1 : strLeB a b = true) (h2 : strLeB b c = true) :
    strLeB a c = true := by
  unfold strLeB at h1 h2 ⊢
  rcases hca : strLtB c a with _ | _
  · rfl
  · exfalso
    rcases strLtB_trichot c b with h | h | h
    · rw [h] at h2; cases h2
    · subst h
      rw [hca] at h1; cases h1
    · have := strLtB_trans h hca
      rw [this] at h1; cases h1

theorem strLeB_antisymm {a b : String} (h1 : strLeB a b = true) (h2 : strLeB b a = true) :
    a = b := by
  unfold strLeB at h1 h2
  rcases strLtB_trichot a b with h | h | h
  · rw [h] at h2; cases h2
  · exact h
  · rw [h] at h1; cases h1

/-! ### `sortJS` is a canonical ordering -/

theorem perm_orderedInsertJS (x : String) : ∀ l, (orderedInsertJS x l).Perm (x :: l)
  | [] => List.Perm.refl _
  | y :: ys => by
    unfold orderedInsertJS
    by_cases h : strLtB y x = true
    · simp only [h, if_true]
      exact ((perm_orderedInsertJS x ys).cons y).trans (List.Perm.swap x y ys)
    · simp [h]

theorem perm_sortJS : ∀ l, (sortJS l).Perm l
  | [] => List.Perm.refl _
  | x :: xs => (perm_orderedInsertJS x (sortJS xs)).trans ((perm_sortJS xs).cons x)

theorem sorted_orderedInsertJS (x : String) :
    ∀ l, l.Pairwise (fun a b => strLeB a b = true) →
      (orderedInsertJS x l).Pairwise (fun a b => strLeB a b = true)
  | [], _ => by simp [orderedInsertJS]
  | y :: ys, h => by
    rw [List.pairwise_cons] at h
    unfold orderedInsertJS
    by_cases hlt : strLtB y x = true
    · simp only [hlt, if_true, List.pairwise_cons]
      refine ⟨?_, sorted_orderedInsertJS x ys h.2⟩
      intro z hz
      rcases List.mem_cons.mp ((perm_orderedInsertJS x ys).mem_iff.mp hz) with hz | hz
      · subst hz
        exact strLeB_of_lt hlt
      · exact h.1 z hz
    · rw [Bool.not_eq_true] at hlt
      simp only [hlt, Bool.false_eq_true, if_false, List.pairwise_cons]
      have hxy : strLeB x y = true := strLeB_of_not_lt hlt
      refine ⟨?_, h⟩
      intro z hz
      rcases List.mem_cons.mp hz with hz | hz
      · subst hz; exact hxy
      · exact strLeB_trans hxy (h.1 z hz)

theorem sorted_sortJS : ∀ l, (sortJS l).Pairwise (fun a b => strLeB a b = true)
  | [] => List.Pairwise.nil
  | x :: xs => sorted_orderedInsertJS x (sortJS xs) (sorted_sortJS xs)

/-- Two permuted key lists sort to the same canonical list. -/
theorem sortJS_canon {l1 l2 : List String} (h : l1.Perm l2) : sortJS l1 = sortJS l2 := by
  haveI : IsAntisymm String (fun a b => strLeB a b = true) := ⟨fun _ _ => strLeB_antisymm⟩
  exact List.eq_of_perm_of_sorted
    ((perm_sortJS l1).trans (h.trans (perm_sortJS l2).symm))
    (sorted_sortJS l1) (sorted_sortJS l2)

end BR

namespace BR

/-! ### Association-list lemmas -/

theorem lookup_serFields (K : List String) (k : String) :
    ∀ fs, List.lookup k (serFields K fs) = (List.lookup k fs).map (serVal K)
  | [] => rfl
  | (k0, v) :: fs => by
    rcases h : (k == k0) with _ | _ <;>
      simp [serFields, List.lookup, h, lookup_serFields K k fs]

theorem perm_lookup_eq {l1 l2 : List (String × α)} (h : l1.Perm l2) :
    keysNodup l1 → ∀ k, List.lookup k l1 = List.lookup k l2 := by
  induction h with
  | nil => intro _ _; rfl
  | cons x hp ih =>
    intro nd k
    rcases x with ⟨kx, vx⟩
    rcases hx : (k == kx) with _ | _
    · simp only [List.lookup, hx]
      exact ih (by simpa [keysNodup] using (List.nodup_cons.mp nd).2) k
    · simp [List.lookup, hx]
  | swap x y l =>
    intro nd k
    rcases x with ⟨kx, vx⟩
    rcases y with ⟨ky, vy⟩
    have hne : ky ≠ kx := by
      have := (List.nodup_cons.mp nd).1
      simp only [List.map_cons, List.mem_cons] at this
      intro h
      exact this (Or.inl h)
    rcases hky : (k == ky) with _ | _ <;> rcases hkx : (k == kx) with _ | _ <;>
      simp [List.lookup, hky, hkx]
    exact absurd (((beq_iff_eq).mp hky).symm.trans ((beq_iff_eq).mp hkx)) hne
  | trans h1 h2 ih1 ih2 =>
    intro nd k
    rw [ih1 nd k, ih2 (h1.map Prod.fst |>.nodup nd) k]

theorem any_key_of_lookup {k : String} {v : α} :
    ∀ {m : List (String × α)}, List.lookup k m = some v →
      m.any (fun p => p.1 == k) = true
  | [], h => by cases h
  | (k0, v0) :: m, h => by
    rcases hk : (k == k0) with _ | _
    · simp only [List.lookup, hk] at h
      simp [any_key_of_lookup h]
    · simp [beq_iff_eq] at hk
      simp [hk]

theorem lookup_none_of_any_false {k : String} :
    ∀ {m : List (String × α)}, m.any (fun p => p.1 == k) = false →
      List.lookup k m = none
  | [], _ => rfl
  | (k0, v0) :: m, h => by
    simp only [List.any_cons, Bool.or_eq_false_iff] at h
    have hk : (k == k0) = false := by
      rcases h with ⟨h1, _⟩
      simp only [beq_eq_false_iff_ne] at h1 ⊢
      exact fun he => h1 he.symm
    simp only [List.lookup, hk]
    exact lookup_none_of_any_false h.2

theorem lookup_append_of_none {k : String} {m1 m2 : List (String × α)}
    (h : List.lookup k m1 = none) : List.lookup k (m1 ++ m2) = List.lookup k m2 := by
  induction m1 with
  | nil => rfl
  | cons p m1 ih =>
    rcases p with ⟨k0, v0⟩
    rcases hk : (k == k0) with _ | _
    · simp only [List.lookup, hk] at h
      simpa [List.lookup, hk] using ih h
    · simp only [List.lookup, hk] at h
      cases h

theorem lookup_append_of_some {k : String} {v : α} {m1 m2 : List (String × α)}
    (h : List.lookup k m1 = some v) : List.lookup k (m1 ++ m2) = some v := by
  induction m1 with
  | nil => cases h
  | cons p m1 ih =>
    rcases p with ⟨k0, v0⟩
    rcases hk : (k == k0) with _ | _
    · simp only [List.lookup, hk] at h
      simpa [List.lookup, hk] using ih h
    · simp only [List.lookup, hk] at h ⊢
      exact h

theorem lookup_replace_of_any {k : String} {v : α} :
    ∀ {m : List (String × α)}, m.any (fun p => p.1 == k) = true →
      List.lookup k (m.map (fun p => if p.1 == k then (k, v) else p)) = some v
  | [], h => by cases h
  | (k0, v0) :: m, h => by
    simp only [List.map_cons]
    rcases hk : (k0 == k) with _ | _
    · rw [if_neg (fun hc => Bool.noConfusion hc)]
      have hk' : (k == k0) = false := by
        simp only [beq_eq_false_iff_ne] at hk ⊢
        exact fun he => hk he.symm
      simp only [List.lookup, hk']
      apply lookup_replace_of_any
      simpa [hk] using h
    · rw [if_pos rfl]
      simp [List.lookup]

/-- `Map.set` makes the key readable with the new value. -/
theorem lookup_mapSet_self (m : List (String × α)) (k : String) (v : α) :
    List.lookup k (mapSet m k v) = some v := by
  unfold mapSet
  rcases hany : m.any (fun p => p.1 == k) with _ | _
  · simp only [Bool.false_eq_true, if_false]
    rw [lookup_append_of_none (lookup_none_of_any_false hany)]
    simp [List.lookup]
  · simp only [if_true]
    exact lookup_replace_of_any hany

theorem map_replace_id {k : String} {v : α} :
    ∀ {m : List (String × α)}, k ∉ m.map Prod.fst →
      m.map (fun p => if p.1 == k then (k, v) else p) = m
  | [], _ => rfl
  | (k0, v0) :: m, h => by
    simp only [List.map_cons, List.mem_cons] at h
    have hk : (k0 == k) = false := by
      simp only [beq_eq_false_iff_ne]
      exact fun he => h (Or.inl he.symm)
    have hf : (if ((k0 == k) = true) then (k, v) else (k0, v0)) = (k0, v0) := by
      simp [hk]
    simp only [List.map_cons, hf]
    rw [map_replace_id (fun hm => h (Or.inr hm))]

theorem lookup_replace_ne {k' k : String} (h : k' ≠ k) (v : α) :
    ∀ m : List (String × α),
      List.lookup k' (m.map (fun p => if p.1 == k then (k, v) else p)) = List.lookup k' m
  | [] => rfl
  | (k0, v0) :: m => by
    simp only [List.map_cons]
    rcases hk : (k0 == k) with _ | _
    · rw [if_neg (fun hc => Bool.noConfusion hc)]
      rcases hk' : (k' == k0) with _ | _
      · simp only [List.lookup, hk']
        exact lookup_replace_ne h v m
      · simp only [List.lookup, hk']
    · rw [if_pos rfl]
      have h2 : (k' == k) = false := beq_eq_false_iff_ne.mpr h
      have h1 : (k' == k0) = false := by
        simp only [beq_iff_eq] at hk
        subst hk
        exact h2
      simp only [List.lookup, h1, h2]
      exact lookup_replace_ne h v m

/-- `Map.set` leaves other keys unchanged. -/
theorem lookup_mapSet_ne {k' k : String} (h : k' ≠ k) (m : List (String × α)) (v : α) :
    List.lookup k' (mapSet m k v) = List.lookup k' m := by
  unfold mapSet
  rcases hany : m.any (fun p => p.1 == k) with _ | _
  · simp only [Bool.false_eq_true, if_false]
    rcases hm : List.lookup k' m with _ | w
    · rw [lookup_append_of_none hm]
      simp [List.lookup, beq_eq_false_iff_ne.mpr h]
    · exact lookup_append_of_some hm
  · simp only [if_true]
    exact lookup_replace_ne h v m

theorem replace_eq_self {k : String} {v : α} :
    ∀ {m : List (String × α)}, keysNodup m → List.lookup k m = some v →
      m.map (fun p => if p.1 == k then (k, v) else p) = m
  | [], _, h => by cases h
  | (k0, v0) :: m, nd, h => by
    simp only [List.map_cons]
    rcases hk : (k0 == k) with _ | _
    · rw [if_neg (fun hc => Bool.noConfusion hc)]
      have hk' : (k == k0) = false := by
        simp only [beq_eq_false_iff_ne] at hk ⊢
        exact fun he => hk he.symm
      simp only [List.lookup, hk'] at h
      rw [replace_eq_self (by simpa [keysNodup] using (List.nodup_cons.mp nd).2) h]
    · simp only [beq_iff_eq] at hk
      subst hk
      simp only [List.lookup, beq_self_eq_true] at h
      injection h with h
      subst h
      rw [if_pos rfl]
      rw [map_replace_id (by simpa [keysNodup] using (List.nodup_cons.mp nd).1)]

/-- Writing back the value already stored is a no-op (unique keys). -/
theorem mapSet_eq_self {m : List (String × α)} {k : String} {v : α}
    (nd : keysNodup m) (h : List.lookup k m = some v) : mapSet m k v = m := by
  unfold mapSet
  rw [any_key_of_lookup h]
  simp only [if_true]
  exact replace_eq_self nd h

theorem keys_replace (k : String) (v : α) :
    ∀ m : List (String × α),
      (m.map (fun p => if p.1 == k then (k, v) else p)).map Prod.fst = m.map Prod.fst
  | [] => rfl
  | (k0, v0) :: m => by
    simp only [List.map_cons]
    rcases hk : (k0 == k) with _ | _
    · rw [if_neg (fun hc => Bool.noConfusion hc)]
      simp only [List.map_cons]
      rw [keys_replace k v m]
    · rw [if_pos rfl]
      have hk0 : k0 = k := beq_iff_eq.mp hk
      subst hk0
      simp only [List.map_cons]
      rw [keys_replace k0 v m]

/-- `Map.set` keeps keys unique. -/
theorem keysNodup_mapSet {m : List (String × α)} (nd : keysNodup m) (k : String) (v : α) :
    keysNodup (mapSet m k v) := by
  unfold mapSet
  rcases hany : m.any (fun p => p.1 == k) with _ | _
  · simp only [Bool.false_eq_true, if_false, keysNodup, List.map_append, List.map_cons,
      List.map_nil]
    rw [List.nodup_append]
    refine ⟨nd, List.nodup_singleton k, ?_⟩
    intro a ha hb
    simp only [List.mem_singleton] at hb
    subst hb
    rcases List.mem_map.mp ha with ⟨p, hp, hpk⟩
    have : (p.1 == a) = true := beq_iff_eq.mpr hpk
    have : m.any (fun p => p.1 == a) = true := List.any_eq_true.mpr ⟨p, hp, this⟩
    rw [this] at hany
    cases hany
  · simp only [if_true, keysNodup, keys_replace]
    exact nd

/-! ### C1 and C2: fingerprint behaviour of `hashState` -/

theorem serVal_obj_ext (K : List String) (fs1 fs2 : List (String × JsonValue))
    (hl : ∀ k, List.lookup k fs1 = List.lookup k fs2) :
    serVal K (.obj fs1) = serVal K (.obj fs2) := by
  simp only [serVal]
  have : (fun k => (List.lookup k (serFields K fs1)).map (fun sv => jsonQuote k ++ (":") ++ sv))
      = (fun k => (List.lookup k (serFields K fs2)).map (fun sv => jsonQuote k ++ (":") ++ sv)) := by
    funext k
    rw [lookup_serFields, lookup_serFields, hl k]
  rw [this]

/-- Two payloads with the same sorted key list and the same value under every
key serialize (and therefore hash) identically. -/
theorem hashState_ext {fs1 fs2 : List (String × JsonValue)}
    (hk : sortedKeys fs1 = sortedKeys fs2)
    (hl : ∀ k, List.lookup k fs1 = List.lookup k fs2) : hashState fs1 = hashState fs2 := by
  unfold hashState
  rw [hk]
  exact congrArg (fun s => sha256 s) (serVal_obj_ext _ _ _ hl)

end BR

/-- C2: two record data mappings that contain exactly the same key-to-value
pairs but were constructed in different key insertion orders (a permutation,
with unique keys as in every JS object) receive the same `hashState`
fingerprint: serialization sorts the top-level keys and looks values up by
key. -/
theorem hashState_insertion_order_invariant
    {fs1 fs2 : List (String × BR.JsonValue)} (h : fs1.Perm fs2) (nd : BR.keysNodup fs1) :
    BR.hashState fs1 = BR.hashState fs2 :=
  BR.hashState_ext (BR.sortJS_canon (h.map Prod.fst)) (BR.perm_lookup_eq h nd)

/-- Witness for C2 at a concrete pair of two-key payloads. -/
theorem hashState_insertion_order_invariant_witness :
    ([(("b"), BR.JsonValue.num 1), (("a"), BR.JsonValue.num 2)]).Perm
      [(("a"), BR.JsonValue.num 2), (("b"), BR.JsonValue.num 1)] ∧
    BR.hashState [(("b"), BR.JsonValue.num 1), (("a"), BR.JsonValue.num 2)] =
      BR.hashState [(("a"), BR.JsonValue.num 2), (("b"), BR.JsonValue.num 1)] :=
  have hp : ([(("b"), BR.JsonValue.num 1), (("a"), BR.JsonValue.num 2)]).Perm
      [(("a"), BR.JsonValue.num 2), (("b"), BR.JsonValue.num 1)] :=
    List.Perm.swap (("a"), BR.JsonValue.num 2) (("b"), BR.JsonValue.num 1) []
  ⟨hp, hashState_insertion_order_invariant hp (by decide)⟩

/-- C1 (refuted): `hashState` serializes with the *top-level* sorted keys as
`JSON.stringify` array replacer, so keys of nested objects that do not occur
at the top level are dropped: the two distinct payloads
`\x7ba: \x7bb: 1\x7d\x7d` and `\x7ba: \x7bb: 2\x7d\x7d` both serialize to
`\x7b"a":\x7b\x7d\x7d` and collide. -/
theorem hashState_nested_collision :
    BR.hashState [(("a"), BR.JsonValue.obj [(("b"), BR.JsonValue.num 1)])] =
      BR.hashState [(("a"), BR.JsonValue.obj [(("b"), BR.JsonValue.num 2)])] ∧
    [(("a"), BR.JsonValue.obj [(("b"), BR.JsonValue.num 1)])] ≠
      [(("a"), BR.JsonValue.obj [(("b"), BR.JsonValue.num 2)])] := by
  constructor
  · rfl
  · intro h
    simp at h

/-! ### C4: concurrent sync rejection -/

/-- C4: a `sync()` call while a sync is already in flight returns the
distinguishable rejection result (`success = false`,
`failed = ["Sync already in progress"]`) and leaves the whole manager state —
records, `lastSync`, store hash — untouched. -/
theorem sync_rejects_concurrent (cfg : BR.MgrConfig) (env : BR.SyncEnv) (opts : BR.SyncOpts)
    (t : String) (m : BR.MgrState) (h : m.syncInProgress = true) :
    (BR.sync cfg env opts t m).1.success = false ∧
    (BR.sync cfg env opts t m).1.failed = [("Sync already in progress")] ∧
    (BR.sync cfg env opts t m).2 = m := by
  unfold BR.sync
  rw [h]
  exact ⟨rfl, rfl, rfl⟩

/-- Witness for C4 at a concrete in-flight state. -/
theorem sync_rejects_concurrent_witness :
    ({ records := [], lastSync := "", hash := "", syncInProgress := true } :
        BR.MgrState).syncInProgress = true ∧
    ((BR.sync ⟨.latestP⟩ BR.emptyEnv {} ("t")
        { records := [], lastSync := "", hash := "", syncInProgress := true }).1.success = false ∧
      (BR.sync ⟨.latestP⟩ BR.emptyEnv {} ("t")
        { records := [], lastSync := "", hash := "", syncInProgress := true }).1.failed =
          [("Sync already in progress")] ∧
      (BR.sync ⟨.latestP⟩ BR.emptyEnv {} ("t")
        { records := [], lastSync := "", hash := "", syncInProgress := true }).2 =
          { records := [], lastSync := "", hash := "", syncInProgress := true }) :=
  ⟨rfl, sync_rejects_concurrent ⟨.latestP⟩ BR.emptyEnv {} ("t") _ rfl⟩

/-! ### C10: update of a missing id -/

/-- C10: `update(id, data)` for an id not in the store returns `null` and
returns with the store completely unchanged — no record is created, nothing
is rehashed (the whole `localState`, including the store hash, is equal). -/
theorem update_missing_id (st : BR.MgrState) (id : String)
    (p : List (String × BR.JsonValue)) (now : String)
    (h : List.lookup id st.records = none) :
    BR.update st id p now = (none, st) := by
  unfold BR.update
  rw [h]

/-- Witness for C10 on an empty store. -/
theorem update_missing_id_witness :
    List.lookup ("x") (BR.mgr0.records) = none ∧
    BR.update BR.mgr0 ("x") [] ("t") = (none, BR.mgr0) :=
  ⟨rfl, update_missing_id BR.mgr0 ("x") [] ("t") rfl⟩

/-! ### C7: update semantics -/

/-- C7 (amended): for a present record, `update` returns the record with the
shallowly merged data, fingerprint `hashState` of that merged data, version
exactly one higher, empty `syncedTo`, and stores that record under the id
(replacing the previous one). (The original claim's parenthetical "so the
fingerprint changes whenever the merge changes the data" is refuted by
`update_changes_data_not_hash`.) -/
theorem update_found (st : BR.MgrState) (id : String)
    (p : List (String × BR.JsonValue)) (now : String) (r : BR.StateRecord)
    (h : List.lookup id st.records = some r) :
    ∃ u, (BR.update st id p now).1 = some u ∧
      u.data = BR.spreadMerge r.data p ∧
      u.hash = BR.hashState (BR.spreadMerge r.data p) ∧
      u.version = r.version + 1 ∧
      u.syncedTo = [] ∧
      List.lookup id (BR.update st id p now).2.records = some u := by
  unfold BR.update
  rw [h]
  exact ⟨_, rfl, rfl, rfl, rfl, rfl, BR.lookup_mapSet_self _ _ _⟩

/-- Witness for C7 on a concrete one-record store. -/
theorem update_found_witness :
    List.lookup ("r1") BR.nestedStore.records = some (BR.nestedRec 1) ∧
    (∃ u, (BR.update BR.nestedStore ("r1") BR.nestedPatch ("t")).1 = some u ∧
      u.data = BR.spreadMerge (BR.nestedRec 1).data BR.nestedPatch ∧
      u.hash = BR.hashState (BR.spreadMerge (BR.nestedRec 1).data BR.nestedPatch) ∧
      u.version = (BR.nestedRec 1).version + 1 ∧
      u.syncedTo = [] ∧
      List.lookup ("r1") (BR.update BR.nestedStore ("r1") BR.nestedPatch ("t")).2.records =
        some u) :=
  ⟨rfl, update_found BR.nestedStore ("r1") BR.nestedPatch ("t") (BR.nestedRec 1) rfl⟩

/-- C7's parenthetical refuted: updating `\x7ba: \x7bb: 1\x7d\x7d` with
`\x7ba: \x7bb: 2\x7d\x7d` changes the record's data but not its fingerprint
(the nested key is dropped from the serialization, claim C1). -/
theorem update_changes_data_not_hash :
    ((BR.update BR.nestedStore ("r1") BR.nestedPatch ("2024-01-02T00:00:00.000Z")).1.map
        (fun u => u.hash)) = some (BR.nestedRec 1).hash ∧
    ((BR.update BR.nestedStore ("r1") BR.nestedPatch ("2024-01-02T00:00:00.000Z")).1.map
        (fun u => u.data)) ≠ some (BR.nestedRec 1).data := by
  constructor
  · rfl
  · intro h
    simp [BR.update, BR.nestedStore, BR.nestedPatch, BR.nestedRec, BR.spreadMerge,
      List.lookup] at h

/-! ### C3: integrity failure handling during pull -/

/-- C3 (amended): when the retrieved Cloudflare blob fails fingerprint
verification (`hashState` over the payload differs from the recorded hash),
a pull-direction `sync()` merges nothing from that adapter — but it also
records **no** failure: the integrity mismatch is silently skipped and the
result's `failed` list stays empty. -/
theorem integrity_mismatch_silently_skipped (cfg : BR.MgrConfig) (blob : BR.StoredBlob)
    (po : BR.PushOut) (gt : String → Int) (nw t : String) (m : BR.MgrState)
    (hflag : m.syncInProgress = false)
    (hbad : BR.hashState (BR.remoteDataFields blob.data) ≠ blob.hash) :
    (BR.sync cfg ⟨some ⟨.fetched (.stored blob), po⟩, none, gt, nw⟩ BR.pullOpts t m).1.failed
        = [] ∧
    (BR.sync cfg ⟨some ⟨.fetched (.stored blob), po⟩, none, gt, nw⟩ BR.pullOpts t m).2.records
        = m.records := by
  have hvalid : (BR.hashState (BR.remoteDataFields blob.data) == blob.hash) = false :=
    beq_eq_false_iff_ne.mpr hbad
  unfold BR.sync
  rw [hflag]
  simp only [Bool.false_eq_true, if_false, BR.pullOpts, Option.getD_some]
  unfold BR.pullFromRemote BR.cfPullPhase BR.sfPullPhase BR.retrieveState
  simp [hvalid, BR.updateLocalHash, BR.emptyRes]

/-- Witness for C3's amended statement: a concrete blob whose recorded hash
is the empty string (the recomputed fingerprint is a 64-character hex
digest). -/
theorem integrity_mismatch_silently_skipped_witness :
    BR.mgr0.syncInProgress = false ∧
    BR.hashState (BR.remoteDataFields (BR.remoteData1 (BR.flatRec ("prod")))) ≠ "" ∧
    ((BR.sync ⟨.latestP⟩
        ⟨some ⟨.fetched (.stored ⟨BR.remoteData1 (BR.flatRec ("prod")), ""⟩), .ok false⟩,
          none, fun _ => 0, "2024-01-01T00:00:00.000Z"⟩
        BR.pullOpts ("2024-01-02T00:00:00.000Z") BR.mgr0).1.failed = [] ∧
      (BR.sync ⟨.latestP⟩
        ⟨some ⟨.fetched (.stored ⟨BR.remoteData1 (BR.flatRec ("prod")), ""⟩), .ok false⟩,
          none, fun _ => 0, "2024-01-01T00:00:00.000Z"⟩
        BR.pullOpts ("2024-01-02T00:00:00.000Z") BR.mgr0).2.records = BR.mgr0.records) :=
  ⟨rfl, by decide,
    integrity_mismatch_silently_skipped ⟨.latestP⟩ ⟨BR.remoteData1 (BR.flatRec ("prod")), ""⟩
      (.ok false) (fun _ => 0) ("2024-01-01T00:00:00.000Z") ("2024-01-02T00:00:00.000Z")
      BR.mgr0 rfl (by decide)⟩

/-- C3 (counterexample to the claim as stated): at a concrete corrupted blob
(fingerprint mismatch), the sync result's `failed` list is empty — no
non-retryable integrity failure is recorded for the adapter. -/
theorem c3_no_integrity_failure_recorded :
    BR.hashState (BR.remoteDataFields (BR.remoteData1 (BR.flatRec ("prod")))) ≠ "" ∧
    (BR.sync ⟨.latestP⟩ (BR.cfEnvOf ⟨BR.remoteData1 (BR.flatRec ("prod")), ""⟩) BR.pullOpts
        ("2024-01-02T00:00:00.000Z") BR.mgr0).1.failed = [] := by
  constructor
  · decide
  · decide

/-! ### C6: push-phase record selection -/

/-- C6 (amended): without `force`, the push phase selects exactly the
type-filtered records whose `syncedTo` has fewer than **2** entries — the
constant count of the two known remote stores, not the number of adapters
actually configured; with `force` it selects every type-filtered record. -/
theorem recordsToSync_characterization (opts : BR.SyncOpts)
    (recs : List (String × BR.StateRecord)) (r : BR.StateRecord) :
    r ∈ BR.recordsToSync opts recs ↔
      r ∈ recs.map Prod.snd ∧ BR.typeOk opts r = true ∧
        (opts.force = true ∨ r.syncedTo.length < 2) := by
  unfold BR.recordsToSync
  rw [List.mem_filter]
  simp [Bool.and_eq_true, Bool.or_eq_true, decide_eq_true_eq, and_assoc]

/-- C6 (counterexample to the claim as stated): with only Cloudflare
configured (one remote store), a record already synced to it is still
selected by the code (`syncedTo.length < 2`), while the claim's selection
(`syncedTo` covering the configured store count) excludes it. -/
theorem c6_threshold_is_constant_two :
    (BR.recordsToSync {} [(("r1"), BR.pushedRec)]).length = 1 ∧
    (BR.recordsToSyncSpec BR.cfOnlyEnv {} [(("r1"), BR.pushedRec)]).length = 0 := by
  constructor
  · decide
  · decide

/-! ### C8: the store-wide hash invariant -/

/-- C8 (amended): the store-wide hash equals `hashState` of the records map
together with `lastSync` after `create`, `update`, `delete`,
`importState` and after `pullFromRemote` completes — but **not** after
`sync()` completes, because `sync` overwrites `lastSync` after the last
`updateLocalHash` (see `c8_stale_after_sync`). -/
theorem storeInv_updateLocalHash (st : BR.MgrState) :
    BR.storeInv (BR.updateLocalHash st) := by
  show (BR.getSyncStatus (BR.updateLocalHash st)).hash = _
  simp only [BR.getSyncStatus, BR.updateLocalHash]

theorem storeHash_inv_mutations :
    (∀ st ty data id now, BR.storeInv (BR.create st ty data id now).2) ∧
    (∀ st id data now, BR.storeInv st → BR.storeInv (BR.update st id data now).2) ∧
    (∀ st id, BR.storeInv st → BR.storeInv (BR.deleteRecord st id).2) ∧
    (∀ st doc, BR.storeInv (BR.importState st doc)) ∧
    (∀ cfg env st, BR.storeInv (BR.pullFromRemote cfg env st).2) := by
  refine ⟨?_, ?_, ?_, ?_, ?_⟩
  · intro st ty data id now
    exact storeInv_updateLocalHash _
  · intro st id data now h
    unfold BR.update
    cases hl : List.lookup id st.records with
    | none => exact h
    | some r => exact storeInv_updateLocalHash _
  · intro st id h
    unfold BR.deleteRecord
    by_cases hd : st.records.any (fun p => p.1 == id) = true
    · rw [if_pos hd]
      exact storeInv_updateLocalHash _
    · rw [if_neg hd]
      exact h
  · intro st doc
    exact storeInv_updateLocalHash _
  · intro cfg env st
    exact storeInv_updateLocalHash _

/-- Witness for C8's amended statement, exercising the `update` conjunct on a
store that satisfies the invariant. -/
theorem storeHash_inv_mutations_witness :
    BR.storeInv (BR.updateLocalHash BR.mgr0) ∧
    BR.storeInv (BR.update (BR.updateLocalHash BR.mgr0) ("x") [] ("t")).2 :=
  ⟨rfl, storeHash_inv_mutations.2.1 (BR.updateLocalHash BR.mgr0) ("x") [] ("t") rfl⟩

/-- C8 (counterexample to the claim as stated): after a completed `sync()`
(no adapters configured), the exposed hash still reflects the pre-sync
`lastSync`, so it differs from `hashState` of the current records map with
the current `lastSync`. -/
theorem c8_stale_after_sync :
    ¬ BR.storeInv
      (BR.sync ⟨.latestP⟩ BR.emptyEnv BR.pullOpts ("2024-01-02T00:00:00.000Z") BR.mgr0).2 := by
  decide

/-! ### C9: verify after hash -/

/-- C9 (amended): for hex output encoding (the default), any algorithm, any
iteration count and any salt, `verify(data, hash(data, options))` reports
`valid = true` — `verify` recomputes with the recorded algorithm, iterations
and salt. (For base64/base64url encodings the claim fails, see
`c9_verify_fails_for_base64`: `verify` always recomputes with hex.) -/
theorem verify_roundtrip_hex (data : String) (o : BR.HashOptions) (g g2 : String)
    (ts ts2 : Nat) (henc : o.encoding.getD .hex = .hex) (hg : g ≠ "") :
    (BR.verify data (BR.hash data o g ts) g2 ts2).valid = true := by
  have hsalt : (if o.salt.getD "" = "" then g else o.salt.getD "") ≠ "" := by
    by_cases hs : o.salt.getD "" = ""
    · rw [if_pos hs]
      exact hg
    · rw [if_neg hs]
      exact hs
  unfold BR.verify BR.hash
  rw [henc]
  simp only [Option.getD_some, if_neg hsalt]
  cases halg : o.algorithm.getD .sha256 <;>
    simp [BR.timingSafeCompare, BR.shaInfinity, if_neg hsalt]

/-- Witness for C9's amended statement at concrete inputs. -/
theorem verify_roundtrip_hex_witness :
    (({ algorithm := some .sha256, iterations := some 2, salt := some ("s") } :
        BR.HashOptions).encoding.getD .hex = .hex) ∧ (("g") : String) ≠ "" ∧
    (BR.verify ("data")
      (BR.hash ("data") { algorithm := some .sha256, iterations := some 2, salt := some ("s") }
        ("g") 0) ("g2") 1).valid = true :=
  ⟨rfl, by decide,
    verify_roundtrip_hex ("data")
      { algorithm := some .sha256, iterations := some 2, salt := some ("s") }
      ("g") ("g2") 0 1 rfl (by decide)⟩

/-- C9 (counterexample to the claim as stated): with base64 output encoding
the recorded hash is base64 (44 characters) while `verify` recomputes a hex
digest (64 characters), so verification reports `valid = false`. -/
theorem c9_verify_fails_for_base64 :
    (BR.verify ("a") (BR.hash ("a") ⟨some .sha256, some 1, some ("s"), some .base64⟩ ("g") 0)
      ("g") 0).valid = false := by
  decide

namespace BR

/-! ### C5: merge-loop lemmas -/

theorem mergeStep_lookup_ne (cfg : MgrConfig) (gt : String → Int) (acc : PullAcc)
    (e : String × StateRecord) {k : String} (hk : k ≠ e.1) :
    List.lookup k (mergeStep cfg gt acc e).st.records = List.lookup k acc.st.records := by
  rcases hl : List.lookup e.1 acc.st.records with _ | lr
  · simp only [mergeStep, hl]
    exact lookup_mapSet_ne hk _ _
  · rcases hb : (e.2.hash != lr.hash) with _ | _
    · simp only [mergeStep, hl, hb, Bool.false_eq_true, if_false]
    · rcases hres : (resolveConflict cfg gt lr e.2).2 with _ | rec
      · simp only [mergeStep, hl, hb, reduceIte, hres]
      · simp only [mergeStep, hl, hb, reduceIte, hres]
        exact lookup_mapSet_ne hk _ _

theorem mergeFold_lookup_ne (cfg : MgrConfig) (gt : String → Int) :
    ∀ (entries : List (String × StateRecord)) (acc : PullAcc) {k : String},
      (∀ e ∈ entries, k ≠ e.1) →
      List.lookup k ((entries.foldl (mergeStep cfg gt) acc)).st.records =
        List.lookup k acc.st.records
  | [], _, _, _ => rfl
  | e0 :: rest, acc, k, h => by
    rw [List.foldl_cons,
      mergeFold_lookup_ne cfg gt rest _ (fun e he => h e (List.mem_cons_of_mem _ he))]
    exact mergeStep_lookup_ne cfg gt acc e0 (h e0 (List.mem_cons_self _ _))

theorem mergeStep_nodup (cfg : MgrConfig) (gt : String → Int) (acc : PullAcc)
    (e : String × StateRecord) (nd : keysNodup acc.st.records) :
    keysNodup (mergeStep cfg gt acc e).st.records := by
  rcases hl : List.lookup e.1 acc.st.records with _ | lr
  · simp only [mergeStep, hl]
    exact keysNodup_mapSet nd _ _
  · rcases hb : (e.2.hash != lr.hash) with _ | _
    · simp only [mergeStep, hl, hb, Bool.false_eq_true, if_false]
      exact nd
    · rcases hres : (resolveConflict cfg gt lr e.2).2 with _ | rec
      · simp only [mergeStep, hl, hb, reduceIte, hres]
        exact nd
      · simp only [mergeStep, hl, hb, reduceIte, hres]
        exact keysNodup_mapSet nd _ _

theorem mergeFold_nodup (cfg : MgrConfig) (gt : String → Int) :
    ∀ (entries : List (String × StateRecord)) (acc : PullAcc),
      keysNodup acc.st.records →
      keysNodup ((entries.foldl (mergeStep cfg gt) acc)).st.records
  | [], _, nd => nd
  | e0 :: rest, acc, nd => by
    rw [List.foldl_cons]
    exact mergeFold_nodup cfg gt rest _ (mergeStep_nodup cfg gt acc e0 nd)

theorem mergeStep_mergedAt (cfg : MgrConfig) (gt : String → Int) (acc : PullAcc)
    (e : String × StateRecord) :
    MergedAt cfg gt (mergeStep cfg gt acc e).st.records e := by
  unfold MergedAt
  rcases hl : List.lookup e.1 acc.st.records with _ | lr
  · refine ⟨{ e.2 with syncedTo := [("cloudflare")] }, ?_, Or.inl rfl⟩
    simp only [mergeStep, hl]
    exact lookup_mapSet_self _ _ _
  · rcases hb : (e.2.hash != lr.hash) with _ | _
    · refine ⟨lr, ?_, Or.inl ?_⟩
      · simp only [mergeStep, hl, hb, Bool.false_eq_true, if_false]
      · have : e.2.hash = lr.hash := by simpa using hb
        exact this.symm
    · rcases hp : cfg.conflictResolution with _ | _ | _ | _
      · refine ⟨lr, ?_, Or.inr (Or.inl ?_)⟩
        · simp only [mergeStep, hl, hb, reduceIte, resolveConflict, hp]
          exact lookup_mapSet_self _ _ _
        · simp only [resolveConflict, hp]
      · refine ⟨{ e.2 with syncedTo := [("cloudflare"), ("salesforce")] }, ?_, Or.inl rfl⟩
        simp only [mergeStep, hl, hb, reduceIte, resolveConflict, hp]
        exact lookup_mapSet_self _ _ _
      · refine ⟨lr, ?_, Or.inr (Or.inr ?_)⟩
        · simp only [mergeStep, hl, hb, reduceIte, resolveConflict, hp]
        · simp only [resolveConflict, hp]
      · by_cases ht : gt lr.updatedAt ≥ gt e.2.updatedAt
        · refine ⟨lr, ?_, Or.inr (Or.inl ?_)⟩
          · simp only [mergeStep, hl, hb, reduceIte, resolveConflict, hp, if_pos ht]
            exact lookup_mapSet_self _ _ _
          · simp only [resolveConflict, hp, if_pos ht]
        · refine ⟨{ e.2 with syncedTo := [("cloudflare"), ("salesforce")] }, ?_, Or.inl rfl⟩
          simp only [mergeStep, hl, hb, reduceIte, resolveConflict, hp, if_neg ht]
          exact lookup_mapSet_self _ _ _

theorem mergeFold_mergedAt (cfg : MgrConfig) (gt : String → Int) :
    ∀ (entries : List (String × StateRecord)) (acc : PullAcc),
      keysNodup acc.st.records → (entries.map Prod.fst).Nodup →
      ∀ e ∈ entries, MergedAt cfg gt ((entries.foldl (mergeStep cfg gt) acc)).st.records e
  | [], _, _, _, e, he => absurd he (List.not_mem_nil e)
  | e0 :: rest, acc, nd, nde, e, he => by
    rw [List.foldl_cons]
    rcases List.mem_cons.mp he with he | he
    · subst he
      have h0 := mergeStep_mergedAt cfg gt acc e
      have hpres : List.lookup e.1
          ((rest.foldl (mergeStep cfg gt) (mergeStep cfg gt acc e)).st.records) =
          List.lookup e.1 (mergeStep cfg gt acc e).st.records := by
        apply mergeFold_lookup_ne
        intro e' he'
        have hne : e.1 ∉ rest.map Prod.fst := (List.nodup_cons.mp nde).1
        exact fun hEq => hne (hEq ▸ List.mem_map_of_mem Prod.fst he')
      unfold MergedAt at h0 ⊢
      rcases h0 with ⟨lr, hlr, hcase⟩
      exact ⟨lr, hpres.trans hlr, hcase⟩
    · exact mergeFold_mergedAt cfg gt rest (mergeStep cfg gt acc e0)
        (mergeStep_nodup cfg gt acc e0 nd)
        ((List.nodup_cons.mp nde).2) e he

theorem mergeStep_records_id (cfg : MgrConfig) (gt : String → Int) (acc : PullAcc)
    (e : String × StateRecord) (nd : keysNodup acc.st.records)
    (h : MergedAt cfg gt acc.st.records e) :
    (mergeStep cfg gt acc e).st.records = acc.st.records := by
  unfold MergedAt at h
  rcases h with ⟨lr, hlr, hcase⟩
  rcases hb : (e.2.hash != lr.hash) with _ | _
  · simp only [mergeStep, hlr, hb, Bool.false_eq_true, if_false]
  · have hne : e.2.hash ≠ lr.hash := by simpa using hb
    rcases hcase with hcase | hcase | hcase
    · exact absurd hcase.symm hne
    · simp only [mergeStep, hlr, hb, reduceIte, hcase]
      exact mapSet_eq_self nd hlr
    · simp only [mergeStep, hlr, hb, reduceIte, hcase]

theorem mergeFold_records_id (cfg : MgrConfig) (gt : String → Int) :
    ∀ (entries : List (String × StateRecord)) (acc : PullAcc),
      keysNodup acc.st.records →
      (∀ e ∈ entries, MergedAt cfg gt acc.st.records e) →
      ((entries.foldl (mergeStep cfg gt) acc)).st.records = acc.st.records
  | [], _, _, _ => rfl
  | e0 :: rest, acc, nd, hall => by
    rw [List.foldl_cons]
    have hrec : (mergeStep cfg gt acc e0).st.records = acc.st.records :=
      mergeStep_records_id cfg gt acc e0 nd (hall e0 (List.mem_cons_self e0 rest))
    have hrest := mergeFold_records_id cfg gt rest (mergeStep cfg gt acc e0)
      (by rw [keysNodup, hrec]; exact nd)
      (fun e he => by rw [MergedAt, hrec]; exact hall e (List.mem_cons_of_mem _ he))
    rw [hrest, hrec]

theorem mergeStep_mergedAtR (cfg : MgrConfig) (gt : String → Int) (acc : PullAcc)
    (e : String × StateRecord) (hp : cfg.conflictResolution = .remoteP) :
    MergedAtR (mergeStep cfg gt acc e).st.records e := by
  unfold MergedAtR
  rcases hl : List.lookup e.1 acc.st.records with _ | lr
  · refine ⟨{ e.2 with syncedTo := [("cloudflare")] }, ?_, rfl⟩
    simp only [mergeStep, hl]
    exact lookup_mapSet_self _ _ _
  · rcases hb : (e.2.hash != lr.hash) with _ | _
    · refine ⟨lr, ?_, ?_⟩
      · simp only [mergeStep, hl, hb, Bool.false_eq_true, if_false]
      · have : e.2.hash = lr.hash := by simpa using hb
        exact this.symm
    · refine ⟨{ e.2 with syncedTo := [("cloudflare"), ("salesforce")] }, ?_, rfl⟩
      simp only [mergeStep, hl, hb, reduceIte, resolveConflict, hp]
      exact lookup_mapSet_self _ _ _

theorem mergeFold_mergedAtR (cfg : MgrConfig) (gt : String → Int)
    (hp : cfg.conflictResolution = .remoteP) :
    ∀ (entries : List (String × StateRecord)) (acc : PullAcc),
      (entries.map Prod.fst).Nodup →
      ∀ e ∈ entries, MergedAtR ((entries.foldl (mergeStep cfg gt) acc)).st.records e
  | [], _, _, e, he => absurd he (List.not_mem_nil e)
  | e0 :: rest, acc, nde, e, he => by
    rw [List.foldl_cons]
    rcases List.mem_cons.mp he with he | he
    · subst he
      have h0 := mergeStep_mergedAtR cfg gt acc e hp
      have hpres : List.lookup e.1
          ((rest.foldl (mergeStep cfg gt) (mergeStep cfg gt acc e)).st.records) =
          List.lookup e.1 (mergeStep cfg gt acc e).st.records := by
        apply mergeFold_lookup_ne
        intro e' he'
        have hne : e.1 ∉ rest.map Prod.fst := (List.nodup_cons.mp nde).1
        exact fun hEq => hne (hEq ▸ List.mem_map_of_mem Prod.fst he')
      unfold MergedAtR at h0 ⊢
      rcases h0 with ⟨lr, hlr, hcase⟩
      exact ⟨lr, hpres.trans hlr, hcase⟩
    · exact mergeFold_mergedAtR cfg gt hp rest (mergeStep cfg gt acc e0)
        ((List.nodup_cons.mp nde).2) e he

theorem mergeStep_id_of_hashEq (cfg : MgrConfig) (gt : String → Int) (acc : PullAcc)
    (e : String × StateRecord) (h : MergedAtR acc.st.records e) :
    mergeStep cfg gt acc e = acc := by
  unfold MergedAtR at h
  rcases h with ⟨lr, hlr, hhash⟩
  have hb : (e.2.hash != lr.hash) = false := by
    simp [hhash.symm]
  simp only [mergeStep, hlr, hb, Bool.false_eq_true, if_false]

theorem mergeFold_id_of_hashEq (cfg : MgrConfig) (gt : String → Int) :
    ∀ (entries : List (String × StateRecord)) (acc : PullAcc),
      (∀ e ∈ entries, MergedAtR acc.st.records e) →
      entries.foldl (mergeStep cfg gt) acc = acc
  | [], _, _ => rfl
  | e0 :: rest, acc, hall => by
    rw [List.foldl_cons, mergeStep_id_of_hashEq cfg gt acc e0 (hall e0 (List.mem_cons_self _ _))]
    exact mergeFold_id_of_hashEq cfg gt rest acc (fun e he => hall e (List.mem_cons_of_mem _ he))

end BR

namespace BR

/-- A second Cloudflare pull pass over an unchanged remote environment leaves
the records map exactly as it is, provided every association the first pass
produced is still present (later phases only add records); under the `remote`
policy it reports no conflicts at all. -/
theorem cfPullPhase_stable (cfg : MgrConfig) (env : SyncEnv) (st st' : MgrState)
    (hnd : keysNodup st.records) (hnd' : keysNodup st'.records) (hwf : envWF env = true)
    (hpres : ∀ (k : String) (v : StateRecord),
      List.lookup k (cfPullPhase cfg env st).st.records = some v →
      List.lookup k st'.records = some v) :
    (cfPullPhase cfg env st').st.records = st'.records ∧
    (cfg.conflictResolution = .remoteP → (cfPullPhase cfg env st').conflicts = []) := by
  rcases hcf : env.cloudflare with _ | cf
  · simp only [cfPullPhase, hcf]
    exact ⟨trivial, fun _ => trivial⟩
  · rcases hpull : cf.pull with msg | kv
    · simp only [cfPullPhase, hcf, hpull]
      exact ⟨trivial, fun _ => trivial⟩
    · rcases kv with _ | _ | b
      · simp only [cfPullPhase, hcf, hpull, retrieveState]
        exact ⟨trivial, fun _ => trivial⟩
      · simp only [cfPullPhase, hcf, hpull, retrieveState]
        exact ⟨trivial, fun _ => trivial⟩
      · rcases hv : (hashState (remoteDataFields b.data) == b.hash) with _ | _
        · simp only [cfPullPhase, hcf, hpull, retrieveState, hv, Bool.true_and,
            Bool.false_eq_true, if_false]
          exact ⟨trivial, fun _ => trivial⟩
        · rcases hrr : b.data.records with _ | rrecs
          · simp only [cfPullPhase, hcf, hpull, retrieveState, hv, Bool.true_and, if_true, hrr]
            exact ⟨trivial, fun _ => trivial⟩
          · have reduceCall : ∀ x : MgrState, cfPullPhase cfg env x =
                ⟨(rrecs.foldl (mergeStep cfg env.getTime) ⟨x, [], []⟩).st,
                 (rrecs.foldl (mergeStep cfg env.getTime) ⟨x, [], []⟩).synced, [],
                 (rrecs.foldl (mergeStep cfg env.getTime) ⟨x, [], []⟩).conflicts⟩ := by
              intro x
              simp only [cfPullPhase, hcf, hpull, retrieveState, hv, Bool.true_and, if_true, hrr]
            have hnde : (rrecs.map Prod.fst).Nodup := by
              have hw := hwf
              simp only [envWF, hcf, hpull, hrr] at hw
              exact of_decide_eq_true hw
            have hpres' : ∀ (k : String) (v : StateRecord),
                List.lookup k
                  ((rrecs.foldl (mergeStep cfg env.getTime) ⟨st, [], []⟩)).st.records = some v →
                List.lookup k st'.records = some v := by
              intro k v hkv
              apply hpres k v
              rw [reduceCall st]
              exact hkv
            constructor
            · rw [reduceCall st']
              exact mergeFold_records_id cfg env.getTime rrecs ⟨st', [], []⟩ hnd'
                (fun e he => by
                  have h0 := mergeFold_mergedAt cfg env.getTime rrecs ⟨st, [], []⟩ hnd hnde e he
                  unfold MergedAt at h0 ⊢
                  rcases h0 with ⟨lr, hlr, hcase⟩
                  exact ⟨lr, hpres' e.1 lr hlr, hcase⟩)
            · intro hpol
              rw [reduceCall st']
              have hid := mergeFold_id_of_hashEq cfg env.getTime rrecs ⟨st', [], []⟩
                (fun e he => by
                  have h0 := mergeFold_mergedAtR cfg env.getTime hpol rrecs ⟨st, [], []⟩ hnde e he
                  unfold MergedAtR at h0 ⊢
                  rcases h0 with ⟨lr, hlr, hcase⟩
                  exact ⟨lr, hpres' e.1 lr hlr, hcase⟩)
              rw [hid]

/-- The Cloudflare phase keeps record keys unique. -/
theorem cfPullPhase_nodup (cfg : MgrConfig) (env : SyncEnv) (st : MgrState)
    (hnd : keysNodup st.records) : keysNodup (cfPullPhase cfg env st).st.records := by
  rcases hcf : env.cloudflare with _ | cf
  · simpa only [cfPullPhase, hcf] using hnd
  · rcases hpull : cf.pull with msg | kv
    · simpa only [cfPullPhase, hcf, hpull] using hnd
    · rcases kv with _ | _ | b
      · simpa only [cfPullPhase, hcf, hpull, retrieveState] using hnd
      · simpa only [cfPullPhase, hcf, hpull, retrieveState] using hnd
      · rcases hv : (hashState (remoteDataFields b.data) == b.hash) with _ | _
        · simpa only [cfPullPhase, hcf, hpull, retrieveState, hv, Bool.true_and,
            Bool.false_eq_true, if_false] using hnd
        · rcases hrr : b.data.records with _ | rrecs
          · simpa only [cfPullPhase, hcf, hpull, retrieveState, hv, Bool.true_and, if_true,
              hrr] using hnd
          · simp only [cfPullPhase, hcf, hpull, retrieveState, hv, Bool.true_and, if_true, hrr]
            exact mergeFold_nodup cfg env.getTime rrecs ⟨st, [], []⟩ hnd

/-- A CRM adoption step never disturbs an existing association: it only adds
absent ids. -/
theorem crmAdd_lookup_pres (now ty pre : String) (recs : List (String × StateRecord))
    (a : SFRec) (k : String) (v : StateRecord) (h : List.lookup k recs = some v) :
    List.lookup k (crmAdd now ty pre recs a) = some v := by
  simp only [crmAdd]
  by_cases hp : (List.lookup (pre ++ a.Id) recs).isSome = true
  · rw [if_pos hp]
    exact h
  · rw [if_neg hp]
    by_cases hk : k = pre ++ a.Id
    · subst hk
      rw [h] at hp
      exact absurd rfl hp
    · rw [lookup_mapSet_ne hk]
      exact h

theorem crmFold_lookup_pres (now ty pre : String) :
    ∀ (items : List SFRec) (recs : List (String × StateRecord)) (k : String)
      (v : StateRecord), List.lookup k recs = some v →
      List.lookup k (items.foldl (crmAdd now ty pre) recs) = some v
  | [], _, _, _, h => h
  | a :: items, recs, k, v, h => by
    rw [List.foldl_cons]
    exact crmFold_lookup_pres now ty pre items (crmAdd now ty pre recs a) k v
      (crmAdd_lookup_pres now ty pre recs a k v h)

theorem crmFold_pres_isSome (now ty pre : String) (items : List SFRec)
    (recs : List (String × StateRecord)) (k : String)
    (h : (List.lookup k recs).isSome = true) :
    (List.lookup k (items.foldl (crmAdd now ty pre) recs)).isSome = true := by
  rcases ho : List.lookup k recs with _ | v
  · rw [ho] at h
    exact Bool.noConfusion h
  · rw [crmFold_lookup_pres now ty pre items recs k v ho]
    rfl

theorem crmAdd_self_present (now ty pre : String) (recs : List (String × StateRecord))
    (a : SFRec) : (List.lookup (pre ++ a.Id) (crmAdd now ty pre recs a)).isSome = true := by
  simp only [crmAdd]
  by_cases hp : (List.lookup (pre ++ a.Id) recs).isSome = true
  · rw [if_pos hp]
    exact hp
  · rw [if_neg hp, lookup_mapSet_self]
    rfl

theorem crmFold_present (now ty pre : String) :
    ∀ (items : List SFRec) (recs : List (String × StateRecord)) (a : SFRec), a ∈ items →
      (List.lookup (pre ++ a.Id) (items.foldl (crmAdd now ty pre) recs)).isSome = true
  | [], _, a, ha => absurd ha (List.not_mem_nil a)
  | b :: items, recs, a, ha => by
    rw [List.foldl_cons]
    rcases List.mem_cons.mp ha with ha | ha
    · subst ha
      exact crmFold_pres_isSome now ty pre items (crmAdd now ty pre recs a) (pre ++ a.Id)
        (crmAdd_self_present now ty pre recs a)
    · exact crmFold_present now ty pre items (crmAdd now ty pre recs b) a ha

theorem crmAdd_id_of_present (now ty pre : String) (recs : List (String × StateRecord))
    (a : SFRec) (h : (List.lookup (pre ++ a.Id) recs).isSome = true) :
    crmAdd now ty pre recs a = recs := by
  simp only [crmAdd]
  rw [if_pos h]

theorem crmFold_id_of_present (now ty pre : String) :
    ∀ (items : List SFRec) (recs : List (String × StateRecord)),
      (∀ a ∈ items, (List.lookup (pre ++ a.Id) recs).isSome = true) →
      items.foldl (crmAdd now ty pre) recs = recs
  | [], _, _ => rfl
  | a :: items, recs, h => by
    rw [List.foldl_cons,
      crmAdd_id_of_present now ty pre recs a (h a (List.mem_cons_self a items))]
    exact crmFold_id_of_present now ty pre items recs
      (fun b hb => h b (List.mem_cons_of_mem a hb))

theorem crmAdd_nodup (now ty pre : String) (recs : List (String × StateRecord)) (a : SFRec)
    (nd : keysNodup recs) : keysNodup (crmAdd now ty pre recs a) := by
  simp only [crmAdd]
  by_cases hp : (List.lookup (pre ++ a.Id) recs).isSome = true
  · rw [if_pos hp]
    exact nd
  · rw [if_neg hp]
    exact keysNodup_mapSet nd _ _

theorem crmFold_nodup (now ty pre : String) :
    ∀ (items : List SFRec) (recs : List (String × StateRecord)),
      keysNodup recs → keysNodup (items.foldl (crmAdd now ty pre) recs)
  | [], _, nd => nd
  | a :: items, recs, nd => by
    rw [List.foldl_cons]
    exact crmFold_nodup now ty pre items (crmAdd now ty pre recs a)
      (crmAdd_nodup now ty pre recs a nd)

/-- The Salesforce phase only ever adds records: every existing association
survives it unchanged. -/
theorem sfPullPhase_lookup_pres (env : SyncEnv) (st : MgrState) (k : String)
    (v : StateRecord) (h : List.lookup k st.records = some v) :
    List.lookup k (sfPullPhase env st).st.records = some v := by
  rcases hsf : env.salesforce with _ | sf
  · simpa only [sfPullPhase, hsf] using h
  · rcases hpull : sf.pull with msg | crmOpt
    · simpa only [sfPullPhase, hsf, hpull] using h
    · rcases crmOpt with _ | crm
      · simpa only [sfPullPhase, hsf, hpull] using h
      · simp only [sfPullPhase, hsf, hpull, mergeCRMState]
        exact crmFold_lookup_pres env.now ("crm_opportunity") ("crm_opportunity_")
          crm.opportunities _ k v
          (crmFold_lookup_pres env.now ("crm_contact") ("crm_contact_") crm.contacts _ k v
            (crmFold_lookup_pres env.now ("crm_account") ("crm_account_") crm.accounts
              st.records k v h))

/-- The Salesforce phase keeps record keys unique. -/
theorem sfPullPhase_nodup (env : SyncEnv) (st : MgrState) (nd : keysNodup st.records) :
    keysNodup (sfPullPhase env st).st.records := by
  rcases hsf : env.salesforce with _ | sf
  · simpa only [sfPullPhase, hsf] using nd
  · rcases hpull : sf.pull with msg | crmOpt
    · simpa only [sfPullPhase, hsf, hpull] using nd
    · rcases crmOpt with _ | crm
      · simpa only [sfPullPhase, hsf, hpull] using nd
      · simp only [sfPullPhase, hsf, hpull, mergeCRMState]
        exact crmFold_nodup env.now ("crm_opportunity") ("crm_opportunity_")
          crm.opportunities _
          (crmFold_nodup env.now ("crm_contact") ("crm_contact_") crm.contacts _
            (crmFold_nodup env.now ("crm_account") ("crm_account_") crm.accounts
              st.records nd))

/-- After the Salesforce phase every CRM-derived id is present. -/
theorem sfPullPhase_estab (env : SyncEnv) (st : MgrState) :
    CRMPresent env (sfPullPhase env st).st.records := by
  rcases hsf : env.salesforce with _ | sf
  · simp only [CRMPresent, hsf]
  · rcases hpull : sf.pull with msg | crmOpt
    · simp only [CRMPresent, hsf, hpull]
    · rcases crmOpt with _ | crm
      · simp only [CRMPresent, hsf, hpull]
      · simp only [CRMPresent, hsf, hpull, sfPullPhase, mergeCRMState]
        intro i hi
        simp only [crmIds] at hi
        rcases List.mem_append.mp hi with hi | hi
        · rcases List.mem_append.mp hi with hi | hi
          · rcases List.mem_map.mp hi with ⟨a, ha, rfl⟩
            exact crmFold_pres_isSome env.now ("crm_opportunity") ("crm_opportunity_")
              crm.opportunities _ _
              (crmFold_pres_isSome env.now ("crm_contact") ("crm_contact_") crm.contacts _ _
                (crmFold_present env.now ("crm_account") ("crm_account_") crm.accounts
                  st.records a ha))
          · rcases List.mem_map.mp hi with ⟨a, ha, rfl⟩
            exact crmFold_pres_isSome env.now ("crm_opportunity") ("crm_opportunity_")
              crm.opportunities _ _
              (crmFold_present env.now ("crm_contact") ("crm_contact_") crm.contacts _ a ha)
        · rcases List.mem_map.mp hi with ⟨a, ha, rfl⟩
          exact crmFold_present env.now ("crm_opportunity") ("crm_opportunity_")
            crm.opportunities _ a ha

/-- When every CRM-derived id is already present, the Salesforce phase leaves
the records map unchanged. -/
theorem sfPullPhase_id (env : SyncEnv) (st : MgrState) (h : CRMPresent env st.records) :
    (sfPullPhase env st).st.records = st.records := by
  rcases hsf : env.salesforce with _ | sf
  · simp only [sfPullPhase, hsf]
  · rcases hpull : sf.pull with msg | crmOpt
    · simp only [sfPullPhase, hsf, hpull]
    · rcases crmOpt with _ | crm
      · simp only [sfPullPhase, hsf, hpull]
      · simp only [CRMPresent, hsf, hpull] at h
        simp only [sfPullPhase, hsf, hpull, mergeCRMState]
        have h1 : crm.accounts.foldl (crmAdd env.now ("crm_account") ("crm_account_"))
            st.records = st.records :=
          crmFold_id_of_present env.now ("crm_account") ("crm_account_") crm.accounts
            st.records
            (fun a ha => h (("crm_account_") ++ a.Id)
              (by
                simp only [crmIds]
                exact List.mem_append.mpr (Or.inl (List.mem_append.mpr
                  (Or.inl (List.mem_map_of_mem _ ha))))))
        rw [h1]
        have h2 : crm.contacts.foldl (crmAdd env.now ("crm_contact") ("crm_contact_"))
            st.records = st.records :=
          crmFold_id_of_present env.now ("crm_contact") ("crm_contact_") crm.contacts
            st.records
            (fun a ha => h (("crm_contact_") ++ a.Id)
              (by
                simp only [crmIds]
                exact List.mem_append.mpr (Or.inl (List.mem_append.mpr
                  (Or.inr (List.mem_map_of_mem _ ha))))))
        rw [h2]
        exact crmFold_id_of_present env.now ("crm_opportunity") ("crm_opportunity_")
          crm.opportunities st.records
          (fun a ha => h (("crm_opportunity_") ++ a.Id)
            (by
              simp only [crmIds]
              exact List.mem_append.mpr (Or.inr (List.mem_map_of_mem _ ha))))

/-- `sync` with pull direction runs exactly the pull phase and then updates
`lastSync` and clears the flag. -/
theorem sync_pull_eq (cfg : MgrConfig) (env : SyncEnv) (t : String) (m : MgrState)
    (hflag : m.syncInProgress = false) :
    sync cfg env pullOpts t m =
      (⟨(pullFromRemote cfg env m).1.failed.isEmpty, (pullFromRemote cfg env m).1.synced,
        (pullFromRemote cfg env m).1.failed, (pullFromRemote cfg env m).1.conflicts⟩,
       { (pullFromRemote cfg env m).2 with lastSync := t, syncInProgress := false }) := by
  unfold sync
  rw [hflag]
  simp [pullOpts, emptyRes]

/-- Records after a pull-direction `sync`: the Cloudflare phase followed by
the Salesforce phase. -/
theorem sync_pull_records (cfg : MgrConfig) (env : SyncEnv) (t : String) (m : MgrState)
    (hflag : m.syncInProgress = false) :
    (sync cfg env pullOpts t m).2.records =
      (sfPullPhase env (cfPullPhase cfg env m).st).st.records := by
  rw [sync_pull_eq cfg env t m hflag]
  rfl

/-- Conflicts of a pull-direction `sync`: exactly what the Cloudflare phase
produced (the Salesforce phase never reports conflicts). -/
theorem sync_pull_conflicts (cfg : MgrConfig) (env : SyncEnv) (t : String) (m : MgrState)
    (hflag : m.syncInProgress = false) :
    (sync cfg env pullOpts t m).1.conflicts = (cfPullPhase cfg env m).conflicts := by
  rw [sync_pull_eq cfg env t m hflag]
  rfl

end BR

/-- C5 (amended): with any fixed remote environment — the Cloudflare and
Salesforce adapters each configured or not, in any state — running
`sync(\x7bdirection: 'pull'\x7d)` twice leaves the records map of the second
run exactly equal to that of the first run — in particular every record
fingerprint is unchanged — and under the `remote` conflict policy the second
run reports an empty conflicts list. Under the `local`, `manual` and
timestamp-keeps-local policies the same conflicts are re-reported on every
run (see `c5_conflicts_rereported`). -/
theorem pull_twice_idempotent (cfg : BR.MgrConfig) (env : BR.SyncEnv) (m : BR.MgrState)
    (t1 t2 : String) (hwf : BR.envWF env = true)
    (hnd : BR.keysNodup m.records) (hflag : m.syncInProgress = false) :
    (BR.sync cfg env BR.pullOpts t2 (BR.sync cfg env BR.pullOpts t1 m).2).2.records =
      (BR.sync cfg env BR.pullOpts t1 m).2.records ∧
    (cfg.conflictResolution = .remoteP →
      (BR.sync cfg env BR.pullOpts t2 (BR.sync cfg env BR.pullOpts t1 m).2).1.conflicts = []) := by
  have hm1flag : (BR.sync cfg env BR.pullOpts t1 m).2.syncInProgress = false := by
    rw [BR.sync_pull_eq cfg env t1 m hflag]
  have hm1rec : (BR.sync cfg env BR.pullOpts t1 m).2.records =
      (BR.sfPullPhase env (BR.cfPullPhase cfg env m).st).st.records :=
    BR.sync_pull_records cfg env t1 m hflag
  have hndP : BR.keysNodup (BR.cfPullPhase cfg env m).st.records :=
    BR.cfPullPhase_nodup cfg env m hnd
  have hnd1 : BR.keysNodup (BR.sync cfg env BR.pullOpts t1 m).2.records := by
    rw [hm1rec]
    exact BR.sfPullPhase_nodup env _ hndP
  have hpres : ∀ (k : String) (v : BR.StateRecord),
      List.lookup k (BR.cfPullPhase cfg env m).st.records = some v →
      List.lookup k (BR.sync cfg env BR.pullOpts t1 m).2.records = some v := by
    intro k v h
    rw [hm1rec]
    exact BR.sfPullPhase_lookup_pres env _ k v h
  have hstable := BR.cfPullPhase_stable cfg env m (BR.sync cfg env BR.pullOpts t1 m).2
    hnd hnd1 hwf hpres
  constructor
  · rw [BR.sync_pull_records cfg env t2 _ hm1flag]
    have hcrm : BR.CRMPresent env
        (BR.cfPullPhase cfg env (BR.sync cfg env BR.pullOpts t1 m).2).st.records := by
      rw [hstable.1, hm1rec]
      exact BR.sfPullPhase_estab env _
    rw [BR.sfPullPhase_id env _ hcrm, hstable.1]
  · intro hpol
    rw [BR.sync_pull_conflicts cfg env t2 _ hm1flag]
    exact hstable.2 hpol

/-- Witness for C5's amended statement: both adapters configured — Cloudflare
serves a valid blob with one record, Salesforce serves a one-account CRM
state — merged into an empty store under the `remote` policy. -/
theorem pull_twice_idempotent_witness :
    BR.envWF BR.fullEnv = true ∧
    BR.keysNodup BR.mgr0.records ∧ BR.mgr0.syncInProgress = false ∧
    ((BR.sync ⟨.remoteP⟩ BR.fullEnv BR.pullOpts ("t2")
        (BR.sync ⟨.remoteP⟩ BR.fullEnv BR.pullOpts ("t1") BR.mgr0).2).2.records =
      (BR.sync ⟨.remoteP⟩ BR.fullEnv BR.pullOpts ("t1") BR.mgr0).2.records ∧
      ((⟨.remoteP⟩ : BR.MgrConfig).conflictResolution = .remoteP →
        (BR.sync ⟨.remoteP⟩ BR.fullEnv BR.pullOpts ("t2")
          (BR.sync ⟨.remoteP⟩ BR.fullEnv BR.pullOpts ("t1")
            BR.mgr0).2).1.conflicts = [])) :=
  ⟨by decide, by decide, rfl,
    pull_twice_idempotent ⟨.remoteP⟩ BR.fullEnv BR.mgr0 ("t1") ("t2")
      (by decide) (by decide) rfl⟩

/-- C5 (counterexample to the claim as stated): under the `local` policy,
with a valid remote blob whose record conflicts with the local one, the
*second* pull reports the same conflict again — the conflicts list of the
second call is not empty. -/
theorem c5_conflicts_rereported :
    ((BR.sync ⟨.localP⟩ (BR.cfEnvOf BR.conflictBlob) BR.pullOpts ("t2")
        (BR.sync ⟨.localP⟩ (BR.cfEnvOf BR.conflictBlob) BR.pullOpts ("t1")
          BR.conflictStore).2).1.conflicts).length = 1 := by
  decide
